import Mathlib

namespace SlackMCP

/-!
Verification of the Slack MCP server's access layer against its specification.

Go strings are modelled as lists of characters (`GoStr`); the channel IDs and
policy strings handled by the claims are ASCII, where one `Char` is one byte.
Environment variables read by the Go code are passed as explicit parameters.
-/

/-- A Go string, modelled as its list of characters. -/
abbrev GoStr := List Char

/-- Coercion from Lean string literals to the Go string model. -/
def str (s : String) : GoStr := s.data

/-- Character test of Go's unicode.IsSpace (used by strings.TrimSpace and
strings.Fields): Unicode white space. -/
def isSpaceGo (c : Char) : Bool :=
  let n := c.toNat
  (n == 9) || (n == 10) || (n == 11) || (n == 12) || (n == 13) || (n == 32) ||
  (n == 0x85) || (n == 0xA0) || (n == 0x1680) ||
  (Nat.ble 0x2000 n && Nat.ble n 0x200A) ||
  (n == 0x2028) || (n == 0x2029) || (n == 0x202F) || (n == 0x205F) || (n == 0x3000)

/-- Go strings.TrimSpace: drop leading and trailing white space. -/
def trimSpace (s : GoStr) : GoStr :=
  ((s.dropWhile isSpaceGo).reverse.dropWhile isSpaceGo).reverse

/-- Go strings.Split(s, sep) for a one-character separator: split at every
occurrence, keeping empty fields.  Always returns at least one field. -/
def splitChar (sep : Char) : GoStr → List GoStr
  | [] => [[]]
  | c :: rest =>
    if c = sep then [] :: splitChar sep rest
    else
      match splitChar sep rest with
      | [] => [[c]]
      | t :: ts => (c :: t) :: ts

/-- Go strings.HasPrefix p s (arguments: the leading pattern first). -/
def strStarts : GoStr → GoStr → Bool
  | [], _ => true
  | _ :: _, [] => false
  | p :: ps, c :: cs => (p == c) && strStarts ps cs

/-- Go strings.TrimPrefix: drop one leading occurrence of p, if present. -/
def dropPre (p s : GoStr) : GoStr :=
  if strStarts p s then s.drop p.length else s

/-- Go strings.HasSuffix. -/
def endsWith (suf s : GoStr) : Bool :=
  strStarts suf.reverse s.reverse

/-- Go strings.TrimSuffix: drop one trailing occurrence of suf, if present. -/
def trimSuf (suf s : GoStr) : GoStr :=
  if endsWith suf s then s.take (s.length - suf.length) else s

/-- ASCII fragment of Go strings.ToLower on one character. -/
def lowerChar (c : Char) : Char :=
  if 65 ≤ c.toNat ∧ c.toNat ≤ 90 then Char.ofNat (c.toNat + 32) else c

/-- ASCII fragment of Go strings.ToLower. -/
def toLowerStr (s : GoStr) : GoStr := s.map lowerChar

/-- Go strings.Join with a separator string. -/
def joinWith (sep : GoStr) : List GoStr → GoStr
  | [] => []
  | [s] => s
  | s :: rest => s ++ sep ++ joinWith sep rest

/-!
## Posting policy (claim C1)

isChannelAllowed from src/pkg/handler/conversations.go lines 1214-1237.  The
SLACK_MCP_ADD_MESSAGE_TOOL environment variable is the config parameter.
-/

/-- Loop body of isChannelAllowed: ranges over the comma-separated items; on
fall-through the Go code returns !isNegated. -/
def isChannelAllowedLoop (isNegated : Bool) (channel : GoStr) : List GoStr → Bool
  | [] => !isNegated
  | item :: rest =>
    let item := trimSpace item
    if isNegated then
      if dropPre (str "!") item = channel then false
      else isChannelAllowedLoop isNegated channel rest
    else
      if item = channel then true
      else isChannelAllowedLoop isNegated channel rest

/-- isChannelAllowed: the posting policy gate for conversations_add_message. -/
def isChannelAllowed (config channel : GoStr) : Bool :=
  if config = [] ∨ config = str "true" ∨ config = str "1" then true
  else
    let items := splitChar ',' config
    let isNegated := strStarts (str "!") (trimSpace (items.headD []))
    isChannelAllowedLoop isNegated channel items

/-!
## Base64 (encoding/base64 StdEncoding), byte-level

Bytes are Nat values below 256.  Encoding uses the standard alphabet with
padding; decoding accepts only a multiple-of-four length with padding at the
end (as Go's base64.StdEncoding.DecodeString does), and does not require the
unused trailing bits to be zero (Go's default, non-Strict behaviour).
-/

/-- The standard base64 alphabet. -/
def b64Alphabet : GoStr := str "ABCDEFGHIJKLMNOPQRSTUVWXYZabcdefghijklmnopqrstuvwxyz0123456789+/"

/-- Character for a six-bit value (only ever applied below 64). -/
def b64EncChar (n : Nat) : Char := b64Alphabet.getD n '='

/-- Six-bit value of an alphabet character; none for anything else. -/
def b64DecChar (c : Char) : Option Nat :=
  let n := c.toNat
  if 65 ≤ n ∧ n ≤ 90 then some (n - 65)
  else if 97 ≤ n ∧ n ≤ 122 then some (26 + (n - 97))
  else if 48 ≤ n ∧ n ≤ 57 then some (52 + (n - 48))
  else if n = 43 then some 62
  else if n = 47 then some 63
  else none

/-- Base64-encode a byte list, three bytes at a time, padding the tail. -/
def b64EncodeBytes : List Nat → List Char
  | [] => []
  | [a] => [b64EncChar (a / 4), b64EncChar (a % 4 * 16), '=', '=']
  | [a, b] => [b64EncChar (a / 4), b64EncChar (a % 4 * 16 + b / 16), b64EncChar (b % 16 * 4), '=']
  | a :: b :: c :: rest =>
    b64EncChar (a / 4) :: b64EncChar (a % 4 * 16 + b / 16) ::
      b64EncChar (b % 16 * 4 + c / 64) :: b64EncChar (c % 64) :: b64EncodeBytes rest

/-- Base64-decode to a byte list; none on any input Go's decoder rejects. -/
def b64DecodeBytes : List Char → Option (List Nat)
  | [] => some []
  | c1 :: c2 :: c3 :: c4 :: rest =>
    if c4 = '=' then
      if rest = [] then
        if c3 = '=' then
          match b64DecChar c1, b64DecChar c2 with
          | some s1, some s2 => some [s1 * 4 + s2 / 16]
          | _, _ => none
        else
          match b64DecChar c1, b64DecChar c2, b64DecChar c3 with
          | some s1, some s2, some s3 => some [s1 * 4 + s2 / 16, s2 % 16 * 16 + s3 / 4]
          | _, _, _ => none
      else none
    else
      match b64DecChar c1, b64DecChar c2, b64DecChar c3, b64DecChar c4 with
      | some s1, some s2, some s3, some s4 =>
        match b64DecodeBytes rest with
        | some tail =>
          some ((s1 * 4 + s2 / 16) :: (s2 % 16 * 16 + s3 / 4) :: (s3 % 4 * 64 + s4) :: tail)
        | none => none
      | _, _, _, _ => none
  | _ => none

/-- Go base64.StdEncoding.EncodeToString on the bytes of a string. -/
def base64Encode (s : GoStr) : GoStr := b64EncodeBytes (s.map Char.toNat)

/-- Go base64.StdEncoding.DecodeString; none models the error return. -/
def base64Decode (s : GoStr) : Option GoStr :=
  (b64DecodeBytes s).map (List.map Char.ofNat)

/-!
## Go string comparison

Go compares strings byte-wise lexicographically; for valid UTF-8 this equals
code-point order, modelled here on the character lists.
-/

/-- Go string less-than. -/
def ltStr : GoStr → GoStr → Bool
  | [], [] => false
  | [], _ :: _ => true
  | _ :: _, [] => false
  | a :: as, b :: bs => if a = b then ltStr as bs else decide (a.toNat < b.toNat)

/-!
## Channel cache pagination (src/pkg/handler/channels.go)

The provider.Channel record, restricted to the fields the handler reads.
-/

/-- A cached channel. -/
structure Channel where
  ID : GoStr
  Name : GoStr := []
  Topic : GoStr := []
  Purpose : GoStr := []
  MemberCount : Nat := 0
  IsPrivate : Bool := false
  IsIM : Bool := false
  IsMpIM : Bool := false
deriving DecidableEq, Repr

instance : Inhabited Channel := ⟨{ ID := [] }⟩

/-- Insert a channel into an ID-sorted list, keeping it sorted.  Together with
sortChannels this models the sort.Slice call on the less function
channels[i].ID < channels[j].ID: on lists with pairwise distinct IDs — the
cache is a map keyed by ID — every correct sort produces this unique result. -/
def insertCh (c : Channel) : List Channel → List Channel
  | [] => [c]
  | d :: rest => if ltStr d.ID c.ID then d :: insertCh c rest else c :: d :: rest

/-- Sort channels by ID ascending (Go: sort.Slice with ID less). -/
def sortChannels (l : List Channel) : List Channel := l.foldr insertCh []

/-- The cursor loop of paginateChannels: index of the first channel whose ID is
greater than the decoded cursor ID; none when there is no such channel (the Go
loop then leaves startIndex at zero). -/
def findStartAux (lastID : GoStr) : List Channel → Nat → Option Nat
  | [], _ => none
  | c :: rest, i => if ltStr lastID c.ID then some i else findStartAux lastID rest (i + 1)

/-- Start index of a page: zero for the empty cursor, for an undecodable
cursor, and when no ID is greater than the decoded one. -/
def pageStart (sorted : List Channel) (cursor : GoStr) : Nat :=
  if cursor ≠ [] then
    match base64Decode cursor with
    | some lastID => (findStartAux lastID sorted 0).getD 0
    | none => 0
  else 0

/-- Body of paginateChannels after the sort.Slice call, on the sorted list. -/
def paginateCore (sorted : List Channel) (cursor : GoStr) (limit : Nat) :
    List Channel × GoStr :=
  let startIndex := pageStart sorted cursor
  let endIndex := min (startIndex + limit) sorted.length
  let paged := (sorted.drop startIndex).take (endIndex - startIndex)
  let nextCursor :=
    if endIndex < sorted.length then base64Encode (sorted.getD (endIndex - 1) default).ID
    else []
  (paged, nextCursor)

/-- paginateChannels from src/pkg/handler/channels.go lines 362-393: sort the
cache by ID, decode the cursor (silently starting from the top on a decode
error or when no ID is greater), slice out one page, and emit base64 of the
last ID of the page as the next cursor when channels remain.  The handler
always calls it with a positive limit (it maps limit 0 to 100). -/
def paginateChannels (channels : List Channel) (cursor : GoStr) (limit : Nat) :
    List Channel × GoStr :=
  paginateCore (sortChannels channels) cursor limit

/-- ID of the last channel of a page; empty for an empty page. -/
def lastIdOf (l : List Channel) : GoStr := (l.getLast?).elim [] Channel.ID

/-- Drive the pagination over a sorted cache: call paginateCore, and while it
returns a cursor feed that cursor back.  Fuel bounds the recursion; any fuel
at least the cache size is enough. -/
def paginateRunCore (sorted : List Channel) (limit : Nat) :
    GoStr → Nat → List (List Channel × GoStr)
  | _, 0 => []
  | cursor, fuel + 1 =>
    let pr := paginateCore sorted cursor limit
    if pr.2 = [] then [pr] else pr :: paginateRunCore sorted limit pr.2 fuel

/-- Drive paginateChannels over a cache, starting from a cursor. -/
def paginateRun (channels : List Channel) (limit : Nat) (cursor : GoStr) (fuel : Nat) :
    List (List Channel × GoStr) :=
  paginateRunCore (sortChannels channels) limit cursor fuel

/-!
## Provider state (src/pkg/provider/api.go)

The ApiProvider's mutable state: the user and channel maps with their inverse
maps (association lists keyed by ID resp. name), and the two readiness flags.
File-system and gateway effects are explicit environment values: a cache read
yields none (file read error), some none (unmarshal error) or some (some
list); a live channel listing is a script of page responses consumed in
order.  The rate-limiter wait and the slack.Channel-to-Channel mapping are
orthogonal to the modelled claims and elided: the script already carries
converted channel records.
-/

/-- A Slack user record, restricted to the fields the cache uses. -/
structure SlackUser where
  ID : GoStr
  Name : GoStr := []
  RealName : GoStr := []
deriving DecidableEq, Repr

/-- The ApiProvider's mutable state. -/
structure ApiProvider where
  users : List (GoStr × SlackUser) := []
  usersInv : List (GoStr × GoStr) := []
  channels : List (GoStr × Channel) := []
  channelsInv : List (GoStr × GoStr) := []
  usersReady : Bool := false
  channelsReady : Bool := false
deriving DecidableEq, Repr

/-- Go map assignment m[k] = v on an association list. -/
def mapSet {α : Type} (k : GoStr) (v : α) : List (GoStr × α) → List (GoStr × α)
  | [] => [(k, v)]
  | (k2, v2) :: rest => if k2 = k then (k, v) :: rest else (k2, v2) :: mapSet k v rest

/-- NewApiProvider: both readiness flags start false, all maps empty. -/
def NewApiProvider : ApiProvider := {}

/-- Loop body shared by the cache-load and live paths of RefreshUsers:
users[u.ID] = u and usersInv[u.Name] = u.ID for each user in order. -/
def installUsers (us : List SlackUser) (ap : ApiProvider) : ApiProvider :=
  us.foldl (fun ap u =>
    { ap with users := mapSet u.ID u ap.users, usersInv := mapSet u.Name u.ID ap.usersInv }) ap

/-- The same for channels: channels[c.ID] = c, channelsInv[c.Name] = c.ID. -/
def installChannels (chs : List Channel) (ap : ApiProvider) : ApiProvider :=
  chs.foldl (fun ap c =>
    { ap with channels := mapSet c.ID c ap.channels,
              channelsInv := mapSet c.Name c.ID ap.channelsInv }) ap

/-- Environment of one RefreshUsers call. -/
structure UsersEnv where
  cacheRead : Option (Option (List SlackUser)) := none
  getUsers : Except GoStr (List SlackUser) := Except.ok []
  slackConnect : Except GoStr (List SlackUser) := Except.ok []

/-- Live part of RefreshUsers (after a cache miss or parse error). -/
def RefreshUsersLive (env : UsersEnv) (ap : ApiProvider) : ApiProvider × Option GoStr :=
  match env.getUsers with
  | Except.error e => (ap, some e)
  | Except.ok users =>
    let ap1 := installUsers users ap
    match env.slackConnect with
    | Except.error e => (ap1, some e)
    | Except.ok users2 => ({ installUsers users2 ap1 with usersReady := true }, none)

/-- RefreshUsers (api.go lines 384-457): serve from the snapshot when it
parses; otherwise fetch users then Slack Connect counterparties, surfacing
either fetch error; on success set usersReady.  The returned Option GoStr is
the Go error return. -/
def RefreshUsers (env : UsersEnv) (ap : ApiProvider) : ApiProvider × Option GoStr :=
  match env.cacheRead with
  | some (some cached) => ({ installUsers cached ap with usersReady := true }, none)
  | some none =>
    RefreshUsersLive env ap
  | none =>
    RefreshUsersLive env ap

/-- One page response of the channel listing. -/
abbrev ChanPage := Except GoStr (List Channel × GoStr)

/-- The pagination loop of GetChannels (api.go lines 555-595): consume page
responses in order, install each page into the maps, stop on the first error
(logged, NOT surfaced) or when the next cursor is empty. -/
def getChannelsLoop : List ChanPage → ApiProvider → ApiProvider
  | [], ap => ap
  | page :: rest, ap =>
    match page with
    | Except.error _ => ap
    | Except.ok (chans, nextcur) =>
      let ap1 := installChannels chans ap
      if nextcur = [] then ap1 else getChannelsLoop rest ap1

/-- The channel-type filter at the end of GetChannels (api.go lines 597-613). -/
def filterByTypes (types : List GoStr) (m : List (GoStr × Channel)) : List Channel :=
  types.flatMap (fun t =>
    (m.map Prod.snd).filter (fun ch =>
      (decide (t = str "public_channel") && !ch.IsPrivate) ||
      (decide (t = str "private_channel") && ch.IsPrivate) ||
      (decide (t = str "im") && ch.IsIM) ||
      (decide (t = str "mpim") && ch.IsMpIM)))

/-- AllChanTypes from api.go line 23. -/
def AllChanTypes : List GoStr := [str "mpim", str "im", str "public_channel", str "private_channel"]

/-- GetChannels (api.go lines 535-616): run the pagination loop, then return
the cached channels filtered by the requested types.  It has no error return:
a page error only ends the loop. -/
def GetChannels (pages : List ChanPage) (channelTypes : List GoStr) (ap : ApiProvider) :
    ApiProvider × List Channel :=
  let ap1 := getChannelsLoop pages ap
  (ap1, filterByTypes (if channelTypes = [] then AllChanTypes else channelTypes) ap1.channels)

/-- Environment of one RefreshChannels call. -/
structure ChannelsEnv where
  cacheRead : Option (Option (List Channel)) := none
  pages : List ChanPage := []

/-- Live part of RefreshChannels. -/
def RefreshChannelsLive (env : ChannelsEnv) (ap : ApiProvider) : ApiProvider × Option GoStr :=
  ({ (GetChannels env.pages AllChanTypes ap).1 with channelsReady := true }, none)

/-- RefreshChannels (api.go lines 459-498): serve from the snapshot when it
parses; otherwise run GetChannels and persist its result (the write has no
state effect here); in every case set channelsReady and return nil. -/
def RefreshChannels (env : ChannelsEnv) (ap : ApiProvider) : ApiProvider × Option GoStr :=
  match env.cacheRead with
  | some (some cached) => ({ installChannels cached ap with channelsReady := true }, none)
  | some none => RefreshChannelsLive env ap
  | none => RefreshChannelsLive env ap

/-- ErrUsersNotReady (api.go line 27). -/
def ErrUsersNotReady : GoStr :=
  str "users cache is not ready yet, sync process is still running... please wait"

/-- ErrChannelsNotReady (api.go line 28). -/
def ErrChannelsNotReady : GoStr :=
  str "channels cache is not ready yet, sync process is still running... please wait"

/-- IsReady (api.go lines 632-640). -/
def IsReady (ap : ApiProvider) : Bool × Option GoStr :=
  if ap.usersReady = false then (false, some ErrUsersNotReady)
  else if ap.channelsReady = false then (false, some ErrChannelsNotReady)
  else (true, none)

/-- The provider operations that touch or read its state. -/
inductive ProviderOp where
  | refreshUsers (env : UsersEnv)
  | refreshChannels (env : ChannelsEnv)
  | isReady
  | provideUsersMap
  | provideChannelsMaps

/-- State after one provider operation (the read-only operations IsReady,
ProvideUsersMap and ProvideChannelsMaps return the state unchanged). -/
def applyOp : ProviderOp → ApiProvider → ApiProvider
  | ProviderOp.refreshUsers env, ap => (RefreshUsers env ap).1
  | ProviderOp.refreshChannels env, ap => (RefreshChannels env ap).1
  | ProviderOp.isReady, ap => ap
  | ProviderOp.provideUsersMap, ap => ap
  | ProviderOp.provideChannelsMaps, ap => ap

/-!
## Conversations limit translation and the replies handler
(src/pkg/handler/conversations.go)

time.Now and the local time zone are abstracted into a TimeEnv: nowUnix is
now.Unix(), and midnightShift k is the Unix second of startOfToday.AddDate(0,
0, k) in the process's location.
-/

/-- Abstraction of time.Now() and the local zone for limitByDays. -/
structure TimeEnv where
  nowUnix : Int
  midnightShift : Int → Int

/-- Decimal digit character. -/
def digitChar (n : Nat) : Char := Char.ofNat (48 + n)

/-- Decimal rendering of a Nat (fmt %d). -/
def natToStr (n : Nat) : GoStr :=
  if n < 10 then [digitChar n]
  else natToStr (n / 10) ++ [digitChar (n % 10)]
decreasing_by exact Nat.div_lt_self (by omega) (by omega)

/-- Decimal rendering of an Int (fmt %d). -/
def intToStr (n : Int) : GoStr :=
  if n < 0 then '-' :: natToStr n.natAbs else natToStr n.toNat

/-- Value of a digit run; none on an empty run or a non-digit character. -/
def digitsValAux : GoStr → Nat → Option Nat
  | [], acc => some acc
  | c :: rest, acc =>
    if 48 ≤ c.toNat ∧ c.toNat ≤ 57 then digitsValAux rest (acc * 10 + (c.toNat - 48))
    else none

/-- Value of a nonempty digit string. -/
def digitsVal : GoStr → Option Nat
  | [] => none
  | s => digitsValAux s 0

/-- Go strconv.Atoi: optional sign, then decimal digits (the 64-bit range
check is elided; the limits in scope are far below it). -/
def atoi (s : GoStr) : Option Int :=
  match s with
  | [] => none
  | c :: rest =>
    if c = '+' then (digitsVal rest).map Int.ofNat
    else if c = '-' then (digitsVal rest).map (fun n => -Int.ofNat n)
    else (digitsVal (c :: rest)).map Int.ofNat

/-- Go %q on the strings in scope: wrap in double quotes (escaping elided). -/
def goQuote (s : GoStr) : GoStr := '"' :: (s ++ ['"'])

/-- Error text of limitByDays (tail of the Go message abbreviated). -/
def durErrMsg (limit : GoStr) : GoStr :=
  str "invalid duration limit " ++ goQuote limit ++ str ": must be a positive integer with d suffix"

/-- limitByDays (conversations.go lines 1570-1592): strip the d suffix, parse
a positive day count, and return per-page limit 100, oldest = local midnight
of (today - days + 1), latest = now, both as Slack second.000000 stamps. -/
def limitByDays (tenv : TimeEnv) (limit : GoStr) : Except GoStr (Int × GoStr × GoStr) :=
  let daysStr := trimSuf (str "d") limit
  match atoi daysStr with
  | none => Except.error (durErrMsg limit)
  | some days =>
    if days ≤ 0 then Except.error (durErrMsg limit)
    else
      Except.ok (100, intToStr (tenv.midnightShift (1 - days)) ++ str ".000000",
        intToStr tenv.nowUnix ++ str ".000000")

/-- limitByNumeric (conversations.go lines 1556-1562). -/
def limitByNumeric (limit : GoStr) : Except GoStr Int :=
  match atoi limit with
  | none => Except.error (str "invalid numeric limit: " ++ goQuote limit)
  | some n => Except.ok n

/-- The limit/cursor branch of parseParamsToolConversations (lines
1316-1326): only the d suffix reaches limitByDays; any other limit is parsed
as a plain number when no cursor is given, and ignored otherwise. -/
def parseConvLimit (tenv : TimeEnv) (limit cursor : GoStr) :
    Except GoStr (Int × GoStr × GoStr) :=
  if endsWith (str "d") limit then limitByDays tenv limit
  else if cursor = [] then
    match limitByNumeric limit with
    | Except.error e => Except.error e
    | Except.ok n => Except.ok (n, [], [])
  else Except.ok (0, [], [])

/-- Result record of parseParamsToolConversations. -/
structure ConversationParams where
  channel : GoStr
  limit : Int
  oldest : GoStr
  latest : GoStr
  cursor : GoStr
  activity : Bool
deriving DecidableEq, Repr

/-- Go map read m[k] on an association list. -/
def mapGet {α : Type} : List (GoStr × α) → GoStr → Option α
  | [], _ => none
  | (k2, v) :: rest, k => if k2 = k then some v else mapGet rest k

/-- parseParamsToolConversations (conversations.go lines 1299-1357): require
channel_id, translate the limit, then resolve a name-form channel through the
cache (failing when the caches are not ready or the name is unknown; a
missing primary-map entry yields Go's zero value, the empty ID). -/
def parseParamsToolConversations (tenv : TimeEnv) (ap : ApiProvider)
    (channel_id limit cursor : GoStr) (activity : Bool) :
    Except GoStr ConversationParams :=
  if channel_id = [] then Except.error (str "channel_id must be a string")
  else
    match parseConvLimit tenv limit cursor with
    | Except.error e => Except.error e
    | Except.ok (plimit, oldest, latest) =>
      if strStarts (str "#") channel_id || strStarts (str "@") channel_id then
        if (IsReady ap).1 = false then
          Except.error (str "channel " ++ goQuote channel_id ++ str " not found in empty cache")
        else
          match mapGet ap.channelsInv channel_id with
          | none =>
            Except.error (str "channel " ++ goQuote channel_id ++
              str " not found in synced cache. Try to remove old cache file and restart MCP Server")
          | some chn =>
            match mapGet ap.channels chn with
            | some ch => Except.ok ⟨ch.ID, plimit, oldest, latest, cursor, activity⟩
            | none => Except.ok ⟨[], plimit, oldest, latest, cursor, activity⟩
      else Except.ok ⟨channel_id, plimit, oldest, latest, cursor, activity⟩

/-- slack.GetConversationRepliesParameters as filled by the replies handler. -/
structure GetConversationRepliesParameters where
  ChannelID : GoStr
  Timestamp : GoStr
  Limit : Int
  Oldest : GoStr
  Latest : GoStr
  Cursor : GoStr
  Inclusive : Bool
deriving DecidableEq, Repr

/-- Go strings.Contains(s, string(c)) for a one-character pattern. -/
def containsChar (c : Char) (s : GoStr) : Bool := s.any (fun x => x = c)

/-- The request-validation part of ConversationsRepliesHandler
(conversations.go lines 1139-1163): parse the conversation params, reject an
empty thread_ts, and otherwise build the Slack request that is sent to
GetConversationRepliesContext.  This is everything that happens before the
Slack call. -/
def conversationsRepliesPrepare (tenv : TimeEnv) (ap : ApiProvider)
    (channel_id limit cursor thread_ts : GoStr) (activity : Bool) :
    Except GoStr GetConversationRepliesParameters :=
  match parseParamsToolConversations tenv ap channel_id limit cursor activity with
  | Except.error e => Except.error e
  | Except.ok params =>
    if thread_ts = [] then Except.error (str "thread_ts must be a string")
    else
      Except.ok ⟨params.channel, thread_ts, params.limit, params.oldest, params.latest,
        params.cursor, false⟩

/-- A concrete time environment for evaluation: now = 2025-07-10T14:00:00Z in
a UTC location. -/
def tenv0 : TimeEnv := { nowUnix := 1752156000, midnightShift := fun k => 1752105600 + 86400 * k }

/-!
## Search query split and synthesis (src/pkg/handler/conversations.go)
-/

/-- Worker of Go strings.Fields: split on runs of white space. -/
def fieldsAux : GoStr → GoStr → List GoStr
  | [], acc => if acc = [] then [] else [acc.reverse]
  | c :: rest, acc =>
    if isSpaceGo c then
      if acc = [] then fieldsAux rest [] else acc.reverse :: fieldsAux rest []
    else fieldsAux rest (c :: acc)

/-- Go strings.Fields. -/
def fields (s : GoStr) : List GoStr := fieldsAux s []

/-- Go strings.SplitN(tok, ":", 2), as the two parts when a colon is present
(len(parts) == 2 in the Go code) and none otherwise. -/
def splitN2 : GoStr → Option (GoStr × GoStr)
  | [] => none
  | c :: rest =>
    if c = ':' then some ([], rest)
    else
      match splitN2 rest with
      | some (k, v) => some (c :: k, v)
      | none => none

/-- validFilterKeys (conversations.go lines 1012-1021). -/
def validFilterKeys : List GoStr :=
  [str "is", str "in", str "from", str "with", str "before", str "after", str "on", str "during"]

/-- isFilterKey (conversations.go lines 1791-1794). -/
def isFilterKey (k : GoStr) : Bool := validFilterKeys.contains (toLowerStr k)

/-- The filters map of splitQuery/buildQuery, keyed by the eight valid filter
keys (field names carry a trailing underscore where the key is a Lean
keyword; all eight are spelled uniformly). -/
structure Filters where
  is_ : List GoStr := []
  in_ : List GoStr := []
  from_ : List GoStr := []
  with_ : List GoStr := []
  before_ : List GoStr := []
  after_ : List GoStr := []
  on_ : List GoStr := []
  during_ : List GoStr := []
deriving DecidableEq, Repr

/-- Map read filters[key]. -/
def getFilter (f : Filters) (k : GoStr) : List GoStr :=
  if k = str "is" then f.is_
  else if k = str "in" then f.in_
  else if k = str "from" then f.from_
  else if k = str "with" then f.with_
  else if k = str "before" then f.before_
  else if k = str "after" then f.after_
  else if k = str "on" then f.on_
  else if k = str "during" then f.during_
  else []

/-- Map write filters[key] = vs. -/
def setFilter (f : Filters) (k : GoStr) (vs : List GoStr) : Filters :=
  if k = str "is" then { f with is_ := vs }
  else if k = str "in" then { f with in_ := vs }
  else if k = str "from" then { f with from_ := vs }
  else if k = str "with" then { f with with_ := vs }
  else if k = str "before" then { f with before_ := vs }
  else if k = str "after" then { f with after_ := vs }
  else if k = str "on" then { f with on_ := vs }
  else if k = str "during" then { f with during_ := vs }
  else f

/-- Go filters[key] = append(filters[key], v) for the eight valid keys. -/
def appendFilter (f : Filters) (k : GoStr) (v : GoStr) : Filters :=
  setFilter f k (getFilter f k ++ [v])

/-- Token loop of splitQuery (conversations.go lines 1796-1808). -/
def splitQueryAux : List GoStr → List GoStr × Filters → List GoStr × Filters
  | [], acc => acc
  | tok :: rest, (free, fl) =>
    match splitN2 tok with
    | some (k, v) =>
      if isFilterKey k then splitQueryAux rest (free, appendFilter fl (toLowerStr k) v)
      else splitQueryAux rest (free ++ [tok], fl)
    | none => splitQueryAux rest (free ++ [tok], fl)

/-- splitQuery: split a raw query into free text and per-key filter lists. -/
def splitQuery (q : GoStr) : List GoStr × Filters := splitQueryAux (fields q) ([], {})

/-- addFilter (conversations.go lines 1810-1817): deduplicating append. -/
def addFilter (fl : Filters) (k v : GoStr) : Filters :=
  if v ∈ getFilter fl k then fl else appendFilter fl k v

/-- The fixed key order of buildQuery (conversations.go line 1822). -/
def buildKeyOrder : List GoStr :=
  [str "is", str "in", str "from", str "with", str "before", str "after", str "on", str "during"]

/-- buildQuery (conversations.go lines 1819-1828): free text, then key:value
tokens in the fixed key order, joined by single spaces. -/
def buildQuery (freeText : List GoStr) (fl : Filters) : GoStr :=
  joinWith [' ']
    (freeText ++ buildKeyOrder.flatMap (fun k => (getFilter fl k).map (fun v => k ++ ':' :: v)))

/-- A token that splitQuery would classify as free text: either it has no
colon, or the part before the first colon (lowercased) is not a filter key. -/
def classifiesFree (tok : GoStr) : Bool :=
  match splitN2 tok with
  | some (k, _) => !isFilterKey k
  | none => true

/-!
## Text processor (src/pkg/text/text_processor.go)

The regular expressions of the source are embedded as direct character-level
matchers with the same leftmost, greedy, non-overlapping semantics.  Scanners
carry a fuel argument; every caller passes the text length, which always
suffices since each step consumes at least one character.  Character classes
are the ASCII fragments of the source classes (the inputs in scope are
ASCII).
-/

/-- Character class of the regex escape backslash-s ([\t\n\f\r ]). -/
def isSpaceRe (c : Char) : Bool :=
  (c.toNat == 9) || (c.toNat == 10) || (c.toNat == 12) || (c.toNat == 13) || (c.toNat == 32)

/-- ASCII decimal digit. -/
def isDigitChar (c : Char) : Bool := (48 ≤ c.toNat && c.toNat ≤ 57 : Bool)

/-- ASCII letter. -/
def isAlphaAscii (c : Char) : Bool :=
  ((65 ≤ c.toNat && c.toNat ≤ 90) || (97 ≤ c.toNat && c.toNat ≤ 122) : Bool)

/-- Regex word character ([0-9A-Za-z_]), as used by the boundary escape. -/
def isWordChar (c : Char) : Bool := isDigitChar c || isAlphaAscii c || (c.toNat == 95)

/-- ASCII letter or digit. -/
def isAlnum (c : Char) : Bool := isDigitChar c || isAlphaAscii c

/-- Match the literal https:// or http:// scheme of the regex https?://,
returning the matched scheme text and the remainder. -/
def parseScheme : GoStr → Option (GoStr × GoStr)
  | 'h' :: 't' :: 't' :: 'p' :: rest =>
    match rest with
    | 's' :: ':' :: '/' :: '/' :: rest2 => some (str "https://", rest2)
    | ':' :: '/' :: '/' :: rest2 => some (str "http://", rest2)
    | _ => none
  | _ => none

/-- Go strings.Index(s, pat): index of the first occurrence, none for -1. -/
def subIndex (pat : GoStr) : GoStr → Option Nat
  | [] => if pat = [] then some 0 else none
  | c :: rest =>
    if strStarts pat (c :: rest) then some 0
    else (subIndex pat rest).map (· + 1)

/-- Go strings.LastIndex(s, pat): index of the last occurrence. -/
def lastIndexAux (pat : GoStr) : GoStr → Nat → Option Nat
  | [], i => if pat = [] then some i else none
  | c :: rest, i =>
    match lastIndexAux pat rest (i + 1) with
    | some j => some j
    | none => if strStarts pat (c :: rest) then some i else none

/-- Go strings.LastIndex(s, pat) with the source's argument order. -/
def lastIndexSub (s pat : GoStr) : Option Nat := lastIndexAux pat s 0

/-- Go strings.Replace(s, pat, repl, 1): replace the first occurrence. -/
def replaceFirst (s pat repl : GoStr) : GoStr :=
  match subIndex pat s with
  | none => s
  | some i => s.take i ++ repl ++ s.drop (i + pat.length)

/-- Match of the regex https?://[^\s]+ at the current position (the URL
finder of IsUnfurlingEnabled), as the match and the remainder. -/
def matchUrlWsAt (s : GoStr) : Option (GoStr × GoStr) :=
  match parseScheme s with
  | none => none
  | some (sch, rest) =>
    let body := rest.takeWhile (fun c => !isSpaceRe c)
    if body = [] then none
    else some (sch ++ body, rest.drop body.length)

/-- FindAllString of the regex https?://[^\s]+. -/
def scanUrlsWs : Nat → GoStr → List GoStr
  | 0, _ => []
  | fuel + 1, s =>
    match s with
    | [] => []
    | c :: rest =>
      match matchUrlWsAt (c :: rest) with
      | some (url, restAfter) => url :: scanUrlsWs fuel restAfter
      | none => scanUrlsWs fuel rest

/-- The URL matches of IsUnfurlingEnabled's urlRe over a text. -/
def findUrlsWs (text : GoStr) : List GoStr := scanUrlsWs text.length text

/-- urlRe.ReplaceAllString(text, " "): each URL match becomes one space. -/
def replaceUrlsWs : Nat → GoStr → GoStr
  | 0, s => s
  | fuel + 1, s =>
    match s with
    | [] => []
    | c :: rest =>
      match matchUrlWsAt (c :: rest) with
      | some (_, restAfter) => ' ' :: replaceUrlsWs fuel restAfter
      | none => c :: replaceUrlsWs fuel rest

/-- One (label dot) group of the bare-domain regex: [A-Za-z0-9] followed by
an optional [A-Za-z0-9-]* run ending alphanumeric, then a literal dot.  The
greedy run with its end-of-group backtracking succeeds exactly when the
maximal alnum-or-hyphen run does not end in a hyphen and a dot follows. -/
def parseGroup : GoStr → Option (GoStr × GoStr)
  | [] => none
  | c :: rest =>
    if isAlnum c then
      let run := rest.takeWhile (fun d => isAlnum d || (d.toNat == 45))
      let rest2 := rest.drop run.length
      let lastOk :=
        match run.getLast? with
        | none => true
        | some d => isAlnum d
      if lastOk then
        match rest2 with
        | '.' :: rest3 => some (c :: (run ++ ['.']), rest3)
        | _ => none
      else none
    else none

/-- Remainders after one, two, three, … successful (label dot) groups. -/
def groupStatesF : Nat → GoStr → List GoStr
  | 0, _ => []
  | fuel + 1, s =>
    match parseGroup s with
    | some (_, rest) => rest :: groupStatesF fuel rest
    | none => []

/-- The final [A-Za-z]{2,} of the domain regex followed by a word boundary:
the maximal letter run when it has length at least two and the next character
is not a word character. -/
def tryTld (s : GoStr) : Option (GoStr × GoStr) :=
  let tld := s.takeWhile isAlphaAscii
  if 2 ≤ tld.length then
    match s.drop tld.length with
    | [] => some (tld, [])
    | c :: rest => if isWordChar c then none else some (tld, c :: rest)
  else none

/-- Backtracking over the group count: try the deepest state first (the
greedy plus-quantifier gives back whole groups on failure). -/
def firstSomeTld : List GoStr → Option (GoStr × GoStr)
  | [] => none
  | st :: deeper =>
    match firstSomeTld deeper with
    | some r => some r
    | none => tryTld st

/-- Match of the bare-domain regex at the current position: at least one
(label dot) group then a TLD with closing boundary; returns the matched
token and the remainder. -/
def matchDomAt (s : GoStr) : Option (GoStr × GoStr) :=
  match firstSomeTld (groupStatesF s.length s) with
  | some (_, restAfter) => some (s.take (s.length - restAfter.length), restAfter)
  | none => none

/-- FindAllString of the bare-domain regex, tracking the previous character
for the opening word boundary. -/
def scanDoms : Nat → Option Char → GoStr → List GoStr
  | 0, _, _ => []
  | fuel + 1, prev, s =>
    match s with
    | [] => []
    | c :: rest =>
      let boundary :=
        match prev with
        | none => true
        | some p => !isWordChar p
      if boundary then
        match matchDomAt (c :: rest) with
        | some (tok, restAfter) => tok :: scanDoms fuel (tok.getLast?) restAfter
        | none => scanDoms fuel (some c) rest
      else scanDoms fuel (some c) rest

/-- The bare-domain matches of IsUnfurlingEnabled's domRe over a text. -/
def findDoms (text : GoStr) : List GoStr := scanDoms text.length none text

/-- The allow-set parsed from the comma-separated domain list. -/
def allowedDomains (opt : GoStr) : List GoStr :=
  (splitChar ',' opt).filterMap (fun d =>
    let d2 := toLowerStr (trimSpace d)
    if d2 = [] then none else some d2)

/-- Host normalization of IsUnfurlingEnabled: lowercase, cut at the first
colon, strip one leading www. (the u.Host read is modelled upstream). -/
def normHost (host : GoStr) : GoStr :=
  let h := toLowerStr host
  let h2 :=
    match subIndex [':'] h with
    | some idx => h.take idx
    | none => h
  dropPre (str "www.") h2

/-- The two external libraries IsUnfurlingEnabled calls: net/url parsing of a
URL to its Host (none models a parse error or an empty host, both skipped),
and the ICANN flag of golang.org/x/net/publicsuffix. -/
structure NetEnv where
  urlParseHost : GoStr → Option GoStr
  pubSuffixIcann : GoStr → Bool

/-- IsUnfurlingEnabled (text_processor.go lines 75-140): sentinels, then the
domain-list mode: every URL host (normalized) and every ICANN-suffixed bare
domain must be in the allow-set, else unfurling is off for the message.  The
logger argument only emits warnings and is elided. -/
def IsUnfurlingEnabled (env : NetEnv) (text opt : GoStr) : Bool :=
  if opt = [] ∨ opt = str "no" ∨ opt = str "false" ∨ opt = str "0" then false
  else if opt = str "yes" ∨ opt = str "true" ∨ opt = str "1" then true
  else
    let allowed := allowedDomains opt
    if (findUrlsWs text).all (fun u =>
        match env.urlParseHost u with
        | none => true
        | some h => allowed.contains (normHost h)) then
      (findDoms (replaceUrlsWs text.length text)).all (fun d =>
        let d2 := toLowerStr d
        if env.pubSuffixIcann d2 then allowed.contains d2 else true)
    else false

/-- Sample instance of the external libraries for concrete evaluation:
absolute http(s) URL host extraction (authority up to slash, query or
fragment, userinfo stripped at the last at-sign), and an ICANN flag that
recognizes the common TLDs com, org, net and io. -/
def sampleNetEnv : NetEnv :=
  { urlParseHost := fun u =>
      match parseScheme u with
      | none => none
      | some (_, rest) =>
        let auth := rest.takeWhile (fun c => !((c == '/') || (c == '?') || (c == '#')))
        let host :=
          match lastIndexSub auth ['@'] with
          | some i => auth.drop (i + 1)
          | none => auth
        if host = [] then none else some host,
    pubSuffixIcann := fun d =>
      match lastIndexSub d ['.'] with
      | some i => [str "com", str "org", str "net", str "io"].contains (d.drop (i + 1))
      | none => false }

/-- Match of the Slack-link regex at the current position: an angle bracket,
the URL group (https?:// then one or more characters outside the closing
bracket and the pipe), a pipe, the label group (one or more characters other
than the closing bracket), and the closing bracket.  Returns the full match,
the two groups and the remainder. -/
def matchSlackAt (s : GoStr) : Option (GoStr × GoStr × GoStr × GoStr) :=
  match s with
  | '<' :: rest =>
    match parseScheme rest with
    | none => none
    | some (sch, rest2) =>
      let body := rest2.takeWhile (fun c => !((c == '>') || (c == '|')))
      if body = [] then none
      else
        match rest2.drop body.length with
        | '|' :: rest4 =>
          let label := rest4.takeWhile (fun c => !(c == '>'))
          if label = [] then none
          else
            match rest4.drop label.length with
            | '>' :: rest6 =>
              let url := sch ++ body
              some ('<' :: (url ++ '|' :: (label ++ ['>'])), url, label, rest6)
            | _ => none
        | _ => none
  | _ => none

/-- FindAllStringSubmatch of the Slack-link regex: (full, url, label). -/
def scanSlack : Nat → GoStr → List (GoStr × GoStr × GoStr)
  | 0, _ => []
  | fuel + 1, s =>
    match s with
    | [] => []
    | c :: rest =>
      match matchSlackAt (c :: rest) with
      | some (full, url, label, restAfter) => (full, url, label) :: scanSlack fuel restAfter
      | none => scanSlack fuel rest

/-- Match of the markdown-link regex at the current position: bracketed
label (one or more characters other than the closing square bracket), then
the parenthesized URL (https?:// then one or more characters other than the
closing parenthesis).  Returns the full match, the two groups (label first,
as in the source regex) and the remainder. -/
def matchMarkdownAt (s : GoStr) : Option (GoStr × GoStr × GoStr × GoStr) :=
  match s with
  | '[' :: rest =>
    let label := rest.takeWhile (fun c => !(c == ']'))
    if label = [] then none
    else
      match rest.drop label.length with
      | ']' :: '(' :: rest3 =>
        match parseScheme rest3 with
        | none => none
        | some (sch, rest4) =>
          let body := rest4.takeWhile (fun c => !(c == ')'))
          if body = [] then none
          else
            match rest4.drop body.length with
            | ')' :: rest6 =>
              let url := sch ++ body
              some ('[' :: (label ++ ']' :: '(' :: (url ++ [')'])), label, url, rest6)
            | _ => none
      | _ => none
  | _ => none

/-- FindAllStringSubmatch of the markdown-link regex: (full, label, url). -/
def scanMarkdown : Nat → GoStr → List (GoStr × GoStr × GoStr)
  | 0, _ => []
  | fuel + 1, s =>
    match s with
    | [] => []
    | c :: rest =>
      match matchMarkdownAt (c :: rest) with
      | some (full, label, url, restAfter) => (full, label, url) :: scanMarkdown fuel restAfter
      | none => scanMarkdown fuel rest

/-- A double or single quote (codes 34 and 39), the quote class of the HTML
anchor regex. -/
def isQuoteChar (c : Char) : Bool := (c.toNat == 34) || (c.toNat == 39)

/-- Match of the HTML anchor regex at the current position: an opening a tag
with one or more white space characters, href=, a quoted URL (the group
excludes both quote kinds), any run of characters other than the closing
angle bracket, the bracket, the label group (one or more characters other
than an opening angle bracket) and the closing a tag. -/
def matchHtmlAt (s : GoStr) : Option (GoStr × GoStr × GoStr × GoStr) :=
  match s with
  | '<' :: 'a' :: rest =>
    let ws := rest.takeWhile isSpaceRe
    if ws = [] then none
    else
      match rest.drop ws.length with
      | 'h' :: 'r' :: 'e' :: 'f' :: '=' :: q1 :: rest3 =>
        if isQuoteChar q1 then
          let url := rest3.takeWhile (fun c => !isQuoteChar c)
          if url = [] then none
          else
            match rest3.drop url.length with
            | q2 :: rest4 =>
              if isQuoteChar q2 then
                let junk := rest4.takeWhile (fun c => !(c == '>'))
                match rest4.drop junk.length with
                | '>' :: rest5 =>
                  let label := rest5.takeWhile (fun c => !(c == '<'))
                  if label = [] then none
                  else
                    match rest5.drop label.length with
                    | '<' :: '/' :: 'a' :: '>' :: rest6 =>
                      let full := '<' :: 'a' :: (ws ++ 'h' :: 'r' :: 'e' :: 'f' :: '=' :: q1 ::
                        (url ++ q2 :: (junk ++ '>' :: (label ++ '<' :: '/' :: 'a' :: ['>']))))
                      some (full, url, label, rest6)
                    | _ => none
                | _ => none
              else none
            | _ => none
        else none
      | _ => none
  | _ => none

/-- FindAllStringSubmatch of the HTML anchor regex: (full, url, label). -/
def scanHtml : Nat → GoStr → List (GoStr × GoStr × GoStr)
  | 0, _ => []
  | fuel + 1, s =>
    match s with
    | [] => []
    | c :: rest =>
      match matchHtmlAt (c :: rest) with
      | some (full, url, label, restAfter) => (full, url, label) :: scanHtml fuel restAfter
      | none => scanHtml fuel rest

/-- Character class of the URL-protection regex body: everything except
white space and the excluded punctuation (angle brackets, double quote,
braces, pipe, backslash, caret, backquote and square brackets, codes 60, 62,
34, 123, 125, 124, 92, 94, 96, 91, 93). -/
def urlBodyChar (c : Char) : Bool :=
  !isSpaceRe c &&
    !([60, 62, 34, 123, 125, 124, 92, 94, 96, 91, 93].contains c.toNat)

/-- Match of the URL-protection regex https?:// followed by one or more
body-class characters. -/
def matchUrlFilteredAt (s : GoStr) : Option (GoStr × GoStr) :=
  match parseScheme s with
  | none => none
  | some (sch, rest) =>
    let body := rest.takeWhile urlBodyChar
    if body = [] then none
    else some (sch ++ body, rest.drop body.length)

/-- FindAllString of the URL-protection regex. -/
def scanUrlsFiltered : Nat → GoStr → List GoStr
  | 0, _ => []
  | fuel + 1, s =>
    match s with
    | [] => []
    | c :: rest =>
      match matchUrlFilteredAt (c :: rest) with
      | some (url, restAfter) => url :: scanUrlsFiltered fuel restAfter
      | none => scanUrlsFiltered fuel rest

/-- The placeholder string for the i-th protected URL. -/
def urlPlaceholder (i : Nat) : GoStr :=
  str "___URL_PLACEHOLDER_" ++ Char.ofNat (48 + i) :: str "___"

/-- Replace each found URL, in order, by its indexed placeholder. -/
def protectUrls : List GoStr → Nat → GoStr → GoStr
  | [], _, s => s
  | url :: rest, i, s => protectUrls rest (i + 1) (replaceFirst s url (urlPlaceholder i))

/-- Replace each placeholder, in order, by its URL. -/
def restoreUrls : List GoStr → Nat → GoStr → GoStr
  | [], _, s => s
  | url :: rest, i, s => restoreUrls rest (i + 1) (replaceFirst s (urlPlaceholder i) url)

/-- Character class kept by the clean regex (the complement of its negated
class): digits, letters (ASCII fragment of the Unicode letter and mark
classes), regex white space, and the listed punctuation. -/
def allowedClean (c : Char) : Bool :=
  isDigitChar c || isAlphaAscii c || isSpaceRe c ||
    [46, 44, 45, 95, 58, 47, 63, 61, 38, 37].contains c.toNat

/-- Worker of the space-run collapse, tracking whether the previous kept
character came from a space run. -/
def collapseSpacesAux : Bool → GoStr → GoStr
  | _, [] => []
  | prevSpace, c :: rest =>
    if (c == ' ') || (c.toNat == 9) then
      if prevSpace then collapseSpacesAux true rest
      else ' ' :: collapseSpacesAux true rest
    else c :: collapseSpacesAux false rest

/-- The space-run regex: collapse every run of spaces and tabs to one
space. -/
def collapseSpaces (s : GoStr) : GoStr := collapseSpacesAux false s

/-- isLastInText (text_processor.go lines 217-224). -/
def isLastInText (original currentText : GoStr) : Bool :=
  match lastIndexSub currentText original with
  | none => false
  | some pos => trimSpace (currentText.drop (pos + original.length)) = []

/-- replaceWithCommaCheck (text_processor.go lines 196-214): pick the URL and
label group by whether the full match contains a pipe, join them with a dash
and append a comma unless the match is the last content. -/
def replaceWithCommaCheck (full g1 g2 : GoStr) (isLast : Bool) : GoStr :=
  let p := if containsChar '|' full then (g1, g2) else (g2, g1)
  p.1 ++ str " - " ++ p.2 ++ (if isLast then [] else [','])

/-- filterSpecialChars (text_processor.go lines 195-282): rewrite Slack,
markdown and HTML links in turn (each pass re-reads the current text for the
last-content check), protect surviving URLs behind placeholders, strip the
disallowed characters, restore the URLs, collapse space runs and trim. -/
def filterSpecialChars (text : GoStr) : GoStr :=
  let slackMs := scanSlack text.length text
  let text1 := slackMs.foldl (fun t m =>
    replaceFirst t m.1 (replaceWithCommaCheck m.1 m.2.1 m.2.2 (isLastInText m.1 t))) text
  let mdMs := scanMarkdown text1.length text1
  let text2 := mdMs.foldl (fun t m =>
    replaceFirst t m.1 (replaceWithCommaCheck m.1 m.2.1 m.2.2 (isLastInText m.1 t))) text1
  let htmlMs := scanHtml text2.length text2
  let text3 := htmlMs.foldl (fun t m =>
    replaceFirst t m.1
      (m.2.1 ++ str " - " ++ m.2.2 ++ (if isLastInText m.1 t then [] else [',']))) text2
  let urls := scanUrlsFiltered text3.length text3
  let protected_ := protectUrls urls 0 text3
  let cleaned := protected_.filter allowedClean
  let restored := restoreUrls urls 0 cleaned
  trimSpace (collapseSpaces restored)

/-- ProcessText (text_processor.go lines 176-180). -/
def ProcessText (s : GoStr) : GoStr := filterSpecialChars s

/-!
## Theorems
-/

/-- C1: the posting-policy claim fails on the code.  Under the pure deny-list
config "!C2" the unlisted channel C1 is refused (the claim and the tool's own
usage text say it must be allowed), and under the pure allow-list config "C9"
the unlisted channel C1 is allowed (the claim says it must be refused): the
final return of isChannelAllowed negates the polarity flag. -/
theorem isChannelAllowed_policy_inverted :
    isChannelAllowed (str "!C2") (str "C1") = false ∧
    isChannelAllowed (str "C9") (str "C1") = true := by
  constructor <;> rfl

theorem b64DecChar_encChar (n : Nat) (h : n < 64) : b64DecChar (b64EncChar n) = some n := by
  interval_cases n <;> rfl

theorem b64EncChar_ne_pad (n : Nat) (h : n < 64) : b64EncChar n ≠ '=' := by
  intro he
  have h1 := b64DecChar_encChar n h
  rw [he] at h1
  exact Option.noConfusion h1

theorem b64DecodeBytes_cons (c1 c2 c3 c4 : Char) (rest : List Char) :
    b64DecodeBytes (c1 :: c2 :: c3 :: c4 :: rest) =
      if c4 = '=' then
        if rest = [] then
          if c3 = '=' then
            match b64DecChar c1, b64DecChar c2 with
            | some s1, some s2 => some [s1 * 4 + s2 / 16]
            | _, _ => none
          else
            match b64DecChar c1, b64DecChar c2, b64DecChar c3 with
            | some s1, some s2, some s3 => some [s1 * 4 + s2 / 16, s2 % 16 * 16 + s3 / 4]
            | _, _, _ => none
        else none
      else
        match b64DecChar c1, b64DecChar c2, b64DecChar c3, b64DecChar c4 with
        | some s1, some s2, some s3, some s4 =>
          match b64DecodeBytes rest with
          | some tail =>
            some ((s1 * 4 + s2 / 16) :: (s2 % 16 * 16 + s3 / 4) :: (s3 % 4 * 64 + s4) :: tail)
          | none => none
        | _, _, _, _ => none := rfl

theorem b64DecodeBytes_encodeBytes :
    ∀ bs : List Nat, (∀ b ∈ bs, b < 256) → b64DecodeBytes (b64EncodeBytes bs) = some bs
  | [], _ => rfl
  | [a], h => by
    have ha : a < 256 := h a (by simp)
    have h1 : a / 4 < 64 := by omega
    have h2 : a % 4 * 16 < 64 := by omega
    rw [show b64EncodeBytes [a] = [b64EncChar (a / 4), b64EncChar (a % 4 * 16), '=', '='] from rfl,
      b64DecodeBytes_cons, if_pos rfl, if_pos rfl, if_pos rfl,
      b64DecChar_encChar _ h1, b64DecChar_encChar _ h2]
    show some [a / 4 * 4 + a % 4 * 16 / 16] = some [a]
    have e1 : a / 4 * 4 + a % 4 * 16 / 16 = a := by omega
    rw [e1]
  | [a, b], h => by
    have ha : a < 256 := h a (by simp)
    have hb : b < 256 := h b (by simp)
    have h1 : a / 4 < 64 := by omega
    have h2 : a % 4 * 16 + b / 16 < 64 := by omega
    have h3 : b % 16 * 4 < 64 := by omega
    rw [show b64EncodeBytes [a, b] =
        [b64EncChar (a / 4), b64EncChar (a % 4 * 16 + b / 16), b64EncChar (b % 16 * 4), '='] from
        rfl,
      b64DecodeBytes_cons, if_pos rfl, if_pos rfl, if_neg (b64EncChar_ne_pad _ h3),
      b64DecChar_encChar _ h1, b64DecChar_encChar _ h2, b64DecChar_encChar _ h3]
    show some [a / 4 * 4 + (a % 4 * 16 + b / 16) / 16,
      (a % 4 * 16 + b / 16) % 16 * 16 + b % 16 * 4 / 4] = some [a, b]
    have e1 : a / 4 * 4 + (a % 4 * 16 + b / 16) / 16 = a := by omega
    have e2 : (a % 4 * 16 + b / 16) % 16 * 16 + b % 16 * 4 / 4 = b := by omega
    rw [e1, e2]
  | a :: b :: c :: rest, h => by
    have ha : a < 256 := h a (by simp)
    have hb : b < 256 := h b (by simp)
    have hc : c < 256 := h c (by simp)
    have h1 : a / 4 < 64 := by omega
    have h2 : a % 4 * 16 + b / 16 < 64 := by omega
    have h3 : b % 16 * 4 + c / 64 < 64 := by omega
    have h4 : c % 64 < 64 := by omega
    have ih := b64DecodeBytes_encodeBytes rest (by
      intro x hx
      exact h x (by simp [hx]))
    rw [show b64EncodeBytes (a :: b :: c :: rest) =
        b64EncChar (a / 4) :: b64EncChar (a % 4 * 16 + b / 16) ::
          b64EncChar (b % 16 * 4 + c / 64) :: b64EncChar (c % 64) :: b64EncodeBytes rest from rfl,
      b64DecodeBytes_cons, if_neg (b64EncChar_ne_pad _ h4),
      b64DecChar_encChar _ h1, b64DecChar_encChar _ h2, b64DecChar_encChar _ h3,
      b64DecChar_encChar _ h4, ih]
    show some ((a / 4 * 4 + (a % 4 * 16 + b / 16) / 16) ::
        ((a % 4 * 16 + b / 16) % 16 * 16 + (b % 16 * 4 + c / 64) / 4) ::
        ((b % 16 * 4 + c / 64) % 4 * 64 + c % 64) :: rest) = some (a :: b :: c :: rest)
    have e1 : a / 4 * 4 + (a % 4 * 16 + b / 16) / 16 = a := by omega
    have e2 : (a % 4 * 16 + b / 16) % 16 * 16 + (b % 16 * 4 + c / 64) / 4 = b := by omega
    have e3 : (b % 16 * 4 + c / 64) % 4 * 64 + c % 64 = c := by omega
    rw [e1, e2, e3]

theorem char_ofNat_toNat (c : Char) : Char.ofNat c.toNat = c := by
  have hv : c.toNat.isValidChar := c.valid
  apply Char.eq_of_val_eq
  rw [Char.ofNat, dif_pos hv]
  rfl

theorem base64Decode_encode (s : GoStr) (h : ∀ c ∈ s, c.toNat < 256) :
    base64Decode (base64Encode s) = some s := by
  unfold base64Encode base64Decode
  rw [b64DecodeBytes_encodeBytes (s.map Char.toNat)
    (by
      intro b hb
      rcases List.mem_map.mp hb with ⟨c, hc, rfl⟩
      exact h c hc)]
  show some ((s.map Char.toNat).map Char.ofNat) = some s
  rw [List.map_map]
  have hmap : s.map (Char.ofNat ∘ Char.toNat) = s.map id :=
    List.map_congr_left (fun c _ => char_ofNat_toNat c)
  rw [hmap, List.map_id]

theorem base64Encode_ne_nil (s : GoStr) (h : s ≠ []) : base64Encode s ≠ [] := by
  unfold base64Encode
  cases s with
  | nil => exact absurd rfl h
  | cons a rest =>
    cases rest with
    | nil => simp [b64EncodeBytes]
    | cons b rest2 =>
      cases rest2 <;> simp [b64EncodeBytes]

theorem uint32_eq_of_toNat_eq (a b : UInt32) (h : a.toNat = b.toNat) : a = b := by
  cases a
  cases b
  congr 1
  exact BitVec.eq_of_toNat_eq h

theorem char_eq_of_toNat_eq {a b : Char} (h : a.toNat = b.toNat) : a = b :=
  Char.eq_of_val_eq (uint32_eq_of_toNat_eq _ _ h)

theorem ltStr_irrefl : ∀ s : GoStr, ltStr s s = false
  | [] => rfl
  | _ :: as => by
    rw [ltStr, if_pos rfl]
    exact ltStr_irrefl as

theorem ltStr_trans : ∀ {a b c : GoStr}, ltStr a b = true → ltStr b c = true → ltStr a c = true
  | [], [], _, h1, _ => by cases h1
  | [], _ :: _, [], _, h2 => by cases h2
  | [], _ :: _, _ :: _, _, _ => rfl
  | _ :: _, [], _, h1, _ => by cases h1
  | _ :: _, _ :: _, [], _, h2 => by cases h2
  | x :: xs, y :: ys, z :: zs, h1, h2 => by
    rw [ltStr] at h1 h2 ⊢
    by_cases hxy : x = y
    · rw [if_pos hxy] at h1
      by_cases hyz : y = z
      · rw [if_pos hyz] at h2
        rw [if_pos (hxy.trans hyz)]
        exact ltStr_trans h1 h2
      · rw [if_neg hyz] at h2
        rw [hxy, if_neg hyz]
        exact h2
    · rw [if_neg hxy] at h1
      replace h1 : x.toNat < y.toNat := of_decide_eq_true h1
      by_cases hyz : y = z
      · rw [← hyz, if_neg hxy]
        exact decide_eq_true h1
      · rw [if_neg hyz] at h2
        replace h2 : y.toNat < z.toNat := of_decide_eq_true h2
        have hxz : x.toNat < z.toNat := h1.trans h2
        have hne : x ≠ z := by
          intro he
          rw [he] at hxz
          omega
        rw [if_neg hne]
        exact decide_eq_true hxz

theorem ltStr_connex : ∀ a b : GoStr, a = b ∨ ltStr a b = true ∨ ltStr b a = true
  | [], [] => Or.inl rfl
  | [], _ :: _ => Or.inr (Or.inl rfl)
  | _ :: _, [] => Or.inr (Or.inr rfl)
  | a :: as, b :: bs => by
    by_cases hab : a = b
    · rcases ltStr_connex as bs with h | h | h
      · exact Or.inl (by rw [hab, h])
      · exact Or.inr (Or.inl (by rw [ltStr, if_pos hab]; exact h))
      · exact Or.inr (Or.inr (by rw [ltStr, if_pos hab.symm]; exact h))
    · have hn : a.toNat ≠ b.toNat := fun h => hab (char_eq_of_toNat_eq h)
      rcases Nat.lt_or_ge a.toNat b.toNat with h | h
      · exact Or.inr (Or.inl (by rw [ltStr, if_neg hab]; exact decide_eq_true h))
      · have hlt : b.toNat < a.toNat := by omega
        exact Or.inr (Or.inr (by
          rw [ltStr, if_neg (Ne.symm hab)]
          exact decide_eq_true hlt))

theorem ltStr_asymm {a b : GoStr} (h : ltStr a b = true) : ltStr b a = false := by
  by_contra hc
  have hba : ltStr b a = true := by
    cases hh : ltStr b a
    · exact absurd hh hc
    · rfl
  have := ltStr_trans h hba
  rw [ltStr_irrefl] at this
  cases this

theorem insertCh_perm (c : Channel) : ∀ l : List Channel, (insertCh c l).Perm (c :: l)
  | [] => List.Perm.refl _
  | d :: rest => by
    rw [insertCh]
    by_cases h : ltStr d.ID c.ID = true
    · rw [if_pos h]
      exact ((insertCh_perm c rest).cons d).trans (List.Perm.swap c d rest)
    · rw [if_neg h]

theorem sortChannels_perm : ∀ l : List Channel, (sortChannels l).Perm l
  | [] => List.Perm.refl _
  | c :: rest => by
    rw [show sortChannels (c :: rest) = insertCh c (sortChannels rest) from rfl]
    exact (insertCh_perm c (sortChannels rest)).trans ((sortChannels_perm rest).cons c)

theorem findStartAux_none (lastID : GoStr) :
    ∀ (l : List Channel) (i : Nat), (∀ c ∈ l, ltStr lastID c.ID = false) →
      findStartAux lastID l i = none
  | [], _, _ => rfl
  | c :: rest, i, h => by
    rw [findStartAux, if_neg (by rw [h c (by simp)]; exact Bool.false_ne_true)]
    exact findStartAux_none lastID rest (i + 1) (fun d hd => h d (by simp [hd]))

/-- C10: a cursor that is not valid base64, or that decodes to an ID at least
as large as every cached ID, makes the in-memory pagination restart silently
from the first channel: the result is exactly that of the empty cursor. -/
theorem paginateChannels_stale_cursor (channels : List Channel) (cursor : GoStr) (limit : Nat)
    (h : base64Decode cursor = none ∨
      ∃ lastID, base64Decode cursor = some lastID ∧ ∀ c ∈ channels, ltStr lastID c.ID = false) :
    paginateChannels channels cursor limit = paginateChannels channels [] limit := by
  have hstart : pageStart (sortChannels channels) cursor = 0 := by
    by_cases hc : cursor = []
    · rw [hc, pageStart, if_neg (by simp)]
    · rcases h with hdec | ⟨lastID, hdec, hall⟩
      · rw [pageStart, if_pos hc, hdec]
      · rw [pageStart, if_pos hc, hdec]
        have hall2 : ∀ c ∈ sortChannels channels, ltStr lastID c.ID = false := fun c hc2 =>
          hall c ((sortChannels_perm channels).mem_iff.mp hc2)
        show (findStartAux lastID (sortChannels channels) 0).getD 0 = 0
        rw [findStartAux_none lastID (sortChannels channels) 0 hall2]
        rfl
  have hempty : pageStart (sortChannels channels) [] = 0 := by
    rw [pageStart, if_neg (by simp)]
  unfold paginateChannels paginateCore
  simp only [hstart, hempty]

/-- C10 witness: the concrete cursor "!!" is not valid base64 (wrong length and
characters outside the alphabet), and pagination over a one-channel cache
returns the first page exactly as the empty cursor does. -/
theorem paginateChannels_stale_cursor_witness :
    base64Decode (str "!!") = none ∧
    paginateChannels [{ ID := str "C1" }] (str "!!") 1 =
      paginateChannels [{ ID := str "C1" }] [] 1 :=
  ⟨rfl, paginateChannels_stale_cursor _ _ _ (Or.inl rfl)⟩

theorem leStr_trans {a b c : GoStr} (h1 : ltStr b a = false) (h2 : ltStr c b = false) :
    ltStr c a = false := by
  cases hca : ltStr c a with
  | false => rfl
  | true =>
    rcases ltStr_connex a b with he | hab | hba
    · rw [← he] at h2
      rw [hca] at h2
      cases h2
    · have hcb := ltStr_trans hca hab
      rw [hcb] at h2
      cases h2
    · rw [hba] at h1
      cases h1

theorem insertCh_pairwise_le (c : Channel) :
    ∀ l : List Channel, l.Pairwise (fun a b => ltStr b.ID a.ID = false) →
      (insertCh c l).Pairwise (fun a b => ltStr b.ID a.ID = false)
  | [], _ => by
    rw [insertCh]
    exact List.pairwise_singleton _ _
  | d :: rest, h => by
    rw [insertCh]
    rcases List.pairwise_cons.mp h with ⟨hd, hrest⟩
    by_cases hdc : ltStr d.ID c.ID = true
    · rw [if_pos hdc]
      refine List.pairwise_cons.mpr ⟨?_, insertCh_pairwise_le c rest hrest⟩
      intro x hx
      rcases List.mem_cons.mp ((insertCh_perm c rest).mem_iff.mp hx) with rfl | hxr
      · exact ltStr_asymm hdc
      · exact hd x hxr
    · rw [if_neg hdc]
      have hcd : ltStr d.ID c.ID = false := by
        cases hcase : ltStr d.ID c.ID
        · rfl
        · exact absurd hcase hdc
      refine List.pairwise_cons.mpr ⟨?_, h⟩
      intro x hx
      rcases List.mem_cons.mp hx with rfl | hxr
      · exact hcd
      · exact leStr_trans hcd (hd x hxr)

theorem sortChannels_pairwise_le :
    ∀ l : List Channel, (sortChannels l).Pairwise (fun a b => ltStr b.ID a.ID = false)
  | [] => List.Pairwise.nil
  | c :: rest => by
    rw [show sortChannels (c :: rest) = insertCh c (sortChannels rest) from rfl]
    exact insertCh_pairwise_le c _ (sortChannels_pairwise_le rest)

theorem sortChannels_pairwise_lt (l : List Channel) (hnd : (l.map Channel.ID).Nodup) :
    (sortChannels l).Pairwise (fun a b => ltStr a.ID b.ID = true) := by
  have hle := sortChannels_pairwise_le l
  have hperm : ((sortChannels l).map Channel.ID).Perm (l.map Channel.ID) :=
    (sortChannels_perm l).map _
  have hnd2 : ((sortChannels l).map Channel.ID).Nodup := hperm.nodup_iff.mpr hnd
  have hne : (sortChannels l).Pairwise (fun a b => a.ID ≠ b.ID) := List.pairwise_map.mp hnd2
  refine (hle.and hne).imp ?_
  intro a b hab
  rcases hab with ⟨h1, h2⟩
  rcases ltStr_connex a.ID b.ID with he | hlt | hgt
  · exact absurd he h2
  · exact hlt
  · rw [hgt] at h1
    cases h1

theorem getD_eq_getElem_of_lt (l : List Channel) (i : Nat) (h : i < l.length) :
    l.getD i default = l[i] := by
  rw [List.getD_eq_getElem?_getD, List.getElem?_eq_getElem h]
  rfl

theorem findStartAux_append (lastID : GoStr) :
    ∀ (xs : List Channel) (y : Channel) (ys : List Channel) (i : Nat),
      (∀ x ∈ xs, ltStr lastID x.ID = false) → ltStr lastID y.ID = true →
      findStartAux lastID (xs ++ y :: ys) i = some (i + xs.length)
  | [], y, ys, i, _, hy => by
    rw [List.nil_append, findStartAux, if_pos hy]
    simp
  | x :: xs, y, ys, i, hxs, hy => by
    rw [List.cons_append, findStartAux,
      if_neg (by rw [hxs x (by simp)]; exact Bool.false_ne_true)]
    rw [findStartAux_append lastID xs y ys (i + 1) (fun z hz => hxs z (by simp [hz])) hy]
    congr 1
    rw [List.length_cons]
    omega

theorem pageStart_encoded (L : List Channel) (e : Nat)
    (hs : L.Pairwise (fun a b => ltStr a.ID b.ID = true))
    (hascii : ∀ c ∈ L, ∀ ch ∈ c.ID, ch.toNat < 256)
    (hne : ∀ c ∈ L, c.ID ≠ [])
    (h1 : 0 < e) (h2 : e < L.length) :
    pageStart L (base64Encode (L.getD (e - 1) default).ID) = e := by
  have helt : e - 1 < L.length := by omega
  have hgetd : L.getD (e - 1) default = L[e - 1] := getD_eq_getElem_of_lt _ _ helt
  have hmem : L[e - 1] ∈ L := List.getElem_mem _
  have hidne : (L.getD (e - 1) default).ID ≠ [] := by
    rw [hgetd]
    exact hne _ hmem
  have hcne : base64Encode (L.getD (e - 1) default).ID ≠ [] := base64Encode_ne_nil _ hidne
  rw [pageStart, if_pos hcne, base64Decode_encode _ (by rw [hgetd]; exact hascii _ hmem)]
  show (findStartAux (L.getD (e - 1) default).ID L 0).getD 0 = e
  have hhit : ltStr (L.getD (e - 1) default).ID (L.get ⟨e, h2⟩).ID = true := by
    rw [hgetd]
    exact List.pairwise_iff_getElem.mp hs (e - 1) e helt h2 (by omega)
  have hpref : ∀ x ∈ L.take e, ltStr (L.getD (e - 1) default).ID x.ID = false := by
    intro x hx
    obtain ⟨i, hi, hxi⟩ := List.getElem_of_mem hx
    have hilt : i < e := by
      rw [List.length_take] at hi
      omega
    have hiL : i < L.length := by omega
    have hxL : x = L[i] := by
      have hq : (L.take e)[i]? = L[i]? := List.getElem?_take_of_lt hilt
      rw [List.getElem?_eq_getElem hi, List.getElem?_eq_getElem hiL] at hq
      rw [← hxi]
      exact Option.some.inj hq
    rcases Nat.lt_or_ge i (e - 1) with hlt | hge
    · have hp := List.pairwise_iff_getElem.mp hs i (e - 1) hiL helt hlt
      rw [hgetd, hxL]
      exact ltStr_asymm hp
    · have hieq : i = e - 1 := by omega
      subst hieq
      rw [hgetd, hxL]
      exact ltStr_irrefl _
  have hLdecomp : L = L.take e ++ (L.get ⟨e, h2⟩) :: L.drop (e + 1) := by
    conv_lhs => rw [← List.take_append_drop e L]
    rw [List.drop_eq_getElem_cons h2, List.get_eq_getElem]
  set lid := (L.getD (e - 1) default).ID with hlid
  conv_lhs => rw [hLdecomp]
  rw [findStartAux_append _ _ _ _ _ hpref hhit]
  rw [List.length_take, Nat.zero_add, Nat.min_eq_left h2.le]
  rfl

theorem paginateRunCore_succ (sorted : List Channel) (limit : Nat) (cursor : GoStr) (fuel : Nat) :
    paginateRunCore sorted limit cursor (fuel + 1) =
      if (paginateCore sorted cursor limit).2 = [] then [paginateCore sorted cursor limit]
      else paginateCore sorted cursor limit ::
        paginateRunCore sorted limit (paginateCore sorted cursor limit).2 fuel := rfl

theorem paginateCore_eq (L : List Channel) (cursor : GoStr) (limit s : Nat)
    (hp : pageStart L cursor = s) :
    paginateCore L cursor limit =
      ((L.drop s).take (min (s + limit) L.length - s),
        if min (s + limit) L.length < L.length then
          base64Encode (L.getD (min (s + limit) L.length - 1) default).ID
        else []) := by
  simp only [paginateCore, hp]

theorem lastIdOf_slice (L : List Channel) (e k : Nat) (hk : 0 < k) (hek : e + k ≤ L.length) :
    lastIdOf ((L.drop e).take k) = (L.getD (e + k - 1) default).ID := by
  unfold lastIdOf
  rw [List.getLast?_eq_getElem?]
  have hlen : ((L.drop e).take k).length = k := by
    rw [List.length_take, List.length_drop]
    omega
  have harith : e + (k - 1) = e + k - 1 := by omega
  rw [hlen, List.getElem?_take_of_lt (show k - 1 < k by omega), List.getElem?_drop, harith,
    List.getElem?_eq_getElem (show e + k - 1 < L.length by omega),
    getD_eq_getElem_of_lt L (e + k - 1) (by omega)]
  rfl

theorem runCore_from (L : List Channel) (limit : Nat) (hlim : 0 < limit)
    (hs : L.Pairwise (fun a b => ltStr a.ID b.ID = true))
    (hascii : ∀ c ∈ L, ∀ ch ∈ c.ID, ch.toNat < 256)
    (hne : ∀ c ∈ L, c.ID ≠ []) :
    ∀ (fuel e : Nat) (cursor : GoStr), pageStart L cursor = e →
      L.length - e ≤ fuel → 0 < fuel →
      ((paginateRunCore L limit cursor fuel).map Prod.fst).flatten = L.drop e
      ∧ (∀ p ∈ (paginateRunCore L limit cursor fuel).dropLast,
          p.2 = base64Encode (lastIdOf p.1))
      ∧ (∀ p, (paginateRunCore L limit cursor fuel).getLast? = some p → p.2 = []) := by
  intro fuel
  induction fuel with
  | zero =>
    intro e cursor _ _ h4
    exact absurd h4 (by omega)
  | succ fuel ih =>
    intro e cursor hps h3 _
    rw [paginateRunCore_succ, paginateCore_eq L cursor limit e hps]
    by_cases hE : e + limit < L.length
    · have hmin : min (e + limit) L.length = e + limit := Nat.min_eq_left (by omega)
      rw [hmin, if_pos hE]
      have harith : e + limit - e = limit := by omega
      rw [harith]
      have hETop : e + limit - 1 < L.length := by omega
      have hmemE : L.getD (e + limit - 1) default ∈ L := by
        rw [getD_eq_getElem_of_lt _ _ hETop]
        exact List.getElem_mem _
      have hc'ne : base64Encode (L.getD (e + limit - 1) default).ID ≠ [] :=
        base64Encode_ne_nil _ (hne _ hmemE)
      rw [if_neg hc'ne]
      have hpsE : pageStart L (base64Encode (L.getD (e + limit - 1) default).ID) = e + limit :=
        pageStart_encoded L (e + limit) hs hascii hne (by omega) hE
      obtain ⟨ihj, ihdl, ihlast⟩ :=
        ih (e + limit) (base64Encode (L.getD (e + limit - 1) default).ID) hpsE
          (by omega) (by omega)
      have hrestne : paginateRunCore L limit
          (base64Encode (L.getD (e + limit - 1) default).ID) fuel ≠ [] := by
        intro hnil
        rw [hnil] at ihj
        have hd0 : L.drop (e + limit) = [] := by
          rw [← ihj]
          rfl
        rw [List.drop_eq_nil_iff] at hd0
        omega
      obtain ⟨r, rs, hrest⟩ : ∃ r rs, paginateRunCore L limit
          (base64Encode (L.getD (e + limit - 1) default).ID) fuel = r :: rs := by
        cases hcase : paginateRunCore L limit
            (base64Encode (L.getD (e + limit - 1) default).ID) fuel with
        | nil => exact absurd hcase hrestne
        | cons r rs => exact ⟨r, rs, rfl⟩
      refine ⟨?_, ?_, ?_⟩
      · show ((L.drop e).take limit ::
            (paginateRunCore L limit
              (base64Encode (L.getD (e + limit - 1) default).ID) fuel).map Prod.fst).flatten
          = L.drop e
        rw [List.flatten_cons, ihj]
        have hdd : L.drop (e + limit) = (L.drop e).drop limit := by
          rw [List.drop_drop]
        rw [hdd, List.take_append_drop]
      · intro p hp
        rw [hrest, List.dropLast_cons₂] at hp
        rcases List.mem_cons.mp hp with rfl | hpr
        · show base64Encode (L.getD (e + limit - 1) default).ID =
            base64Encode (lastIdOf ((L.drop e).take limit))
          rw [lastIdOf_slice L e limit hlim (by omega)]
        · exact ihdl p (by rw [hrest]; exact hpr)
      · intro p hp
        rw [hrest, List.getLast?_cons_cons] at hp
        exact ihlast p (by rw [hrest]; exact hp)
    · have hmin : min (e + limit) L.length = L.length := Nat.min_eq_right (by omega)
      rw [hmin, if_neg (lt_irrefl L.length), if_pos rfl]
      have hX : (L.drop e).take (L.length - e) = L.drop e :=
        List.take_of_length_le (by rw [List.length_drop])
      refine ⟨?_, ?_, ?_⟩
      · show (L.drop e).take (L.length - e) ++ [] = L.drop e
        rw [List.append_nil]
        exact hX
      · intro p hp
        simp at hp
      · intro p hp
        rw [List.getLast?_singleton] at hp
        rw [← Option.some.inj hp]

/-- C5: repeated in-memory channel pagination from the empty cursor covers the
whole cache: the concatenation of the returned pages equals the cache sorted
by ID ascending, every page but the last carries base64 of its own last ID as
the next cursor, and the final page carries no cursor.  Hypotheses: positive
limit, distinct IDs (the cache is a map keyed by ID), IDs that are nonempty
byte strings. -/
theorem paginateChannels_run_covers (channels : List Channel) (limit : Nat)
    (hlim : 0 < limit)
    (hnd : (channels.map Channel.ID).Nodup)
    (hascii : ∀ c ∈ channels, ∀ ch ∈ c.ID, ch.toNat < 256)
    (hne : ∀ c ∈ channels, c.ID ≠ []) :
    ((paginateRun channels limit [] (channels.length + 1)).map Prod.fst).flatten
        = sortChannels channels
    ∧ (∀ p ∈ (paginateRun channels limit [] (channels.length + 1)).dropLast,
        p.2 = base64Encode (lastIdOf p.1))
    ∧ (∀ p, (paginateRun channels limit [] (channels.length + 1)).getLast? = some p →
        p.2 = []) := by
  have hperm := sortChannels_perm channels
  have hsL := sortChannels_pairwise_lt channels hnd
  have hasciiL : ∀ c ∈ sortChannels channels, ∀ ch ∈ c.ID, ch.toNat < 256 := fun c hc =>
    hascii c (hperm.mem_iff.mp hc)
  have hneL : ∀ c ∈ sortChannels channels, c.ID ≠ [] := fun c hc =>
    hne c (hperm.mem_iff.mp hc)
  have hps0 : pageStart (sortChannels channels) [] = 0 := by
    rw [pageStart, if_neg (by simp)]
  have hlen : (sortChannels channels).length = channels.length := hperm.length_eq
  have := runCore_from (sortChannels channels) limit hlim hsL hasciiL hneL
    (channels.length + 1) 0 [] hps0 (by omega) (by omega)
  rw [List.drop_zero] at this
  exact this

/-- C5 witness: the claim's own example.  Cache with IDs A1, A2, A3 and limit
two: the run yields page [A1, A2] with cursor base64 of A2, then page [A3]
with no cursor, and the concatenation is the sorted cache. -/
theorem paginateChannels_run_covers_witness :
    (((paginateRun [{ ID := str "A3" }, { ID := str "A1" }, { ID := str "A2" }] 2 [] 4).map
          Prod.fst).flatten
        = sortChannels [{ ID := str "A3" }, { ID := str "A1" }, { ID := str "A2" }])
    ∧ (∀ p ∈ (paginateRun [{ ID := str "A3" }, { ID := str "A1" }, { ID := str "A2" }]
          2 [] 4).dropLast, p.2 = base64Encode (lastIdOf p.1))
    ∧ (∀ p, (paginateRun [{ ID := str "A3" }, { ID := str "A1" }, { ID := str "A2" }]
          2 [] 4).getLast? = some p → p.2 = []) :=
  paginateChannels_run_covers
    [{ ID := str "A3" }, { ID := str "A1" }, { ID := str "A2" }] 2
    (by decide) (by decide) (by decide) (by decide)

theorem installUsers_usersReady (us : List SlackUser) :
    ∀ ap : ApiProvider, (installUsers us ap).usersReady = ap.usersReady := by
  induction us with
  | nil => intro ap; rfl
  | cons u rest ih => intro ap; exact ih _

theorem installUsers_channelsReady (us : List SlackUser) :
    ∀ ap : ApiProvider, (installUsers us ap).channelsReady = ap.channelsReady := by
  induction us with
  | nil => intro ap; rfl
  | cons u rest ih => intro ap; exact ih _

theorem installChannels_usersReady (chs : List Channel) :
    ∀ ap : ApiProvider, (installChannels chs ap).usersReady = ap.usersReady := by
  induction chs with
  | nil => intro ap; rfl
  | cons c rest ih => intro ap; exact ih _

theorem installChannels_channelsReady (chs : List Channel) :
    ∀ ap : ApiProvider, (installChannels chs ap).channelsReady = ap.channelsReady := by
  induction chs with
  | nil => intro ap; rfl
  | cons c rest ih => intro ap; exact ih _

theorem getChannelsLoop_usersReady :
    ∀ (pages : List ChanPage) (ap : ApiProvider),
      (getChannelsLoop pages ap).usersReady = ap.usersReady
  | [], _ => rfl
  | Except.error _ :: _, _ => rfl
  | Except.ok (chans, nextcur) :: rest, ap => by
    show (if nextcur = [] then installChannels chans ap
        else getChannelsLoop rest (installChannels chans ap)).usersReady = ap.usersReady
    by_cases h : nextcur = []
    · rw [if_pos h]
      exact installChannels_usersReady chans ap
    · rw [if_neg h, getChannelsLoop_usersReady rest _]
      exact installChannels_usersReady chans ap

theorem getChannelsLoop_channelsReady :
    ∀ (pages : List ChanPage) (ap : ApiProvider),
      (getChannelsLoop pages ap).channelsReady = ap.channelsReady
  | [], _ => rfl
  | Except.error _ :: _, _ => rfl
  | Except.ok (chans, nextcur) :: rest, ap => by
    show (if nextcur = [] then installChannels chans ap
        else getChannelsLoop rest (installChannels chans ap)).channelsReady = ap.channelsReady
    by_cases h : nextcur = []
    · rw [if_pos h]
      exact installChannels_channelsReady chans ap
    · rw [if_neg h, getChannelsLoop_channelsReady rest _]
      exact installChannels_channelsReady chans ap

theorem refreshUsers_flags (env : UsersEnv) (ap : ApiProvider) :
    ((RefreshUsers env ap).1.usersReady = ap.usersReady
      ∨ (RefreshUsers env ap).1.usersReady = true)
    ∧ (RefreshUsers env ap).1.channelsReady = ap.channelsReady := by
  rcases env with ⟨cr, gu, sc⟩
  have hlive : ((RefreshUsersLive ⟨cr, gu, sc⟩ ap).1.usersReady = ap.usersReady
      ∨ (RefreshUsersLive ⟨cr, gu, sc⟩ ap).1.usersReady = true)
      ∧ (RefreshUsersLive ⟨cr, gu, sc⟩ ap).1.channelsReady = ap.channelsReady := by
    match gu with
    | Except.error e => exact ⟨Or.inl rfl, rfl⟩
    | Except.ok users =>
      match sc with
      | Except.error e =>
        exact ⟨Or.inl (installUsers_usersReady users ap), installUsers_channelsReady users ap⟩
      | Except.ok users2 =>
        refine ⟨Or.inr rfl, ?_⟩
        show (installUsers users2 (installUsers users ap)).channelsReady = ap.channelsReady
        rw [installUsers_channelsReady, installUsers_channelsReady]
  match cr with
  | some (some cached) => exact ⟨Or.inr rfl, installUsers_channelsReady cached ap⟩
  | some none => exact hlive
  | none => exact hlive

theorem refreshChannels_flags (env : ChannelsEnv) (ap : ApiProvider) :
    (RefreshChannels env ap).1.usersReady = ap.usersReady
    ∧ (RefreshChannels env ap).1.channelsReady = true := by
  rcases env with ⟨cr, pages⟩
  have hlive : (RefreshChannelsLive ⟨cr, pages⟩ ap).1.usersReady = ap.usersReady
      ∧ (RefreshChannelsLive ⟨cr, pages⟩ ap).1.channelsReady = true := by
    refine ⟨?_, rfl⟩
    show (getChannelsLoop pages ap).usersReady = ap.usersReady
    exact getChannelsLoop_usersReady pages ap
  match cr with
  | some (some cached) => exact ⟨installChannels_usersReady cached ap, rfl⟩
  | some none => exact hlive
  | none => exact hlive

theorem applyOp_monotone (op : ProviderOp) (ap : ApiProvider) :
    (ap.usersReady = true → (applyOp op ap).usersReady = true)
    ∧ (ap.channelsReady = true → (applyOp op ap).channelsReady = true) := by
  cases op with
  | refreshUsers env =>
    obtain ⟨h1, h2⟩ := refreshUsers_flags env ap
    constructor
    · intro hu
      show (RefreshUsers env ap).1.usersReady = true
      rcases h1 with h | h
      · rw [h, hu]
      · exact h
    · intro hc
      show (RefreshUsers env ap).1.channelsReady = true
      rw [h2, hc]
  | refreshChannels env =>
    obtain ⟨h1, h2⟩ := refreshChannels_flags env ap
    constructor
    · intro hu
      show (RefreshChannels env ap).1.usersReady = true
      rw [h1, hu]
    · intro _
      exact h2
  | isReady => exact ⟨id, id⟩
  | provideUsersMap => exact ⟨id, id⟩
  | provideChannelsMaps => exact ⟨id, id⟩

theorem isReady_fst_iff (ap : ApiProvider) :
    (IsReady ap).1 = true ↔ ap.usersReady = true ∧ ap.channelsReady = true := by
  cases hu : ap.usersReady <;> cases hc : ap.channelsReady <;> simp [IsReady, hu, hc]

/-- C9: the readiness flags are monotone.  They start false in NewApiProvider;
every provider operation (refreshes with any file-system or gateway outcome,
and the read-only operations) either preserves a flag or sets it to true; and
once IsReady returns true it returns true after any further sequence of
operations. -/
theorem providerReadiness_monotone :
    (NewApiProvider.usersReady = false ∧ NewApiProvider.channelsReady = false)
    ∧ (∀ (op : ProviderOp) (ap : ApiProvider),
        (ap.usersReady = true → (applyOp op ap).usersReady = true)
        ∧ (ap.channelsReady = true → (applyOp op ap).channelsReady = true))
    ∧ ∀ (ops : List ProviderOp) (ap : ApiProvider),
        (IsReady ap).1 = true →
        (IsReady (ops.foldl (fun s op => applyOp op s) ap)).1 = true := by
  refine ⟨⟨rfl, rfl⟩, applyOp_monotone, ?_⟩
  intro ops
  induction ops with
  | nil => exact fun ap h => h
  | cons op rest ih =>
    intro ap h
    rw [List.foldl_cons]
    apply ih
    rw [isReady_fst_iff] at h ⊢
    exact ⟨(applyOp_monotone op ap).1 h.1, (applyOp_monotone op ap).2 h.2⟩

/-- C9 witness: on a provider whose flags are both set, a refresh-channels
operation (with an erroring gateway) keeps usersReady true, and IsReady stays
true across a refresh-users operation. -/
theorem providerReadiness_monotone_witness :
    (applyOp (ProviderOp.refreshChannels { pages := [Except.error (str "x")] })
        { NewApiProvider with usersReady := true, channelsReady := true }).usersReady = true
    ∧ (IsReady ([ProviderOp.refreshUsers {}].foldl (fun s op => applyOp op s)
        { NewApiProvider with usersReady := true, channelsReady := true })).1 = true :=
  ⟨(providerReadiness_monotone.2.1
      (ProviderOp.refreshChannels { pages := [Except.error (str "x")] }) _).1 rfl,
    providerReadiness_monotone.2.2 [ProviderOp.refreshUsers {}] _ rfl⟩

/-- C2: the claim fails on the code.  With a missing snapshot and a gateway
whose very first channels page errors, RefreshChannels returns nil (so the
watcher's fatal branch is never taken), still marks the channels collection
ready, and leaves the channel cache empty — it silently finishes with an
empty cache instead of terminating the process. -/
theorem refreshChannels_error_not_fatal :
    (RefreshChannels { cacheRead := none, pages := [Except.error (str "boom")] }
        NewApiProvider).2 = none
    ∧ (RefreshChannels { cacheRead := none, pages := [Except.error (str "boom")] }
        NewApiProvider).1.channelsReady = true
    ∧ (RefreshChannels { cacheRead := none, pages := [Except.error (str "boom")] }
        NewApiProvider).1.channels = [] :=
  ⟨rfl, rfl, rfl⟩

/-- C2 amended: a failed live channels refresh is not fatal.  GetChannels
swallows page errors (logging them and ending the loop with whatever was
collected), so RefreshChannels always returns nil and always sets
channelsReady, for every gateway outcome and prior state; the fatal branch in
newChannelsWatcher, which fires only on a non-nil error, is unreachable. -/
theorem refreshChannels_always_ready (env : ChannelsEnv) (ap : ApiProvider) :
    (RefreshChannels env ap).2 = none ∧ (RefreshChannels env ap).1.channelsReady = true := by
  rcases env with ⟨cr, pages⟩
  match cr with
  | some (some cached) => exact ⟨rfl, rfl⟩
  | some none => exact ⟨rfl, rfl⟩
  | none => exact ⟨rfl, rfl⟩

theorem toNat_digitChar (n : Nat) (h : n < 10) : (digitChar n).toNat = 48 + n := by
  interval_cases n <;> rfl

theorem digitChar_is_digit (n : Nat) (h : n < 10) :
    48 ≤ (digitChar n).toNat ∧ (digitChar n).toNat ≤ 57 := by
  rw [toNat_digitChar n h]
  omega

theorem natToStr_ne_nil (n : Nat) : natToStr n ≠ [] := by
  rw [natToStr]
  by_cases h : n < 10
  · rw [if_pos h]
    simp
  · rw [if_neg h]
    simp

theorem natToStr_digits : ∀ (n : Nat), ∀ c ∈ natToStr n, 48 ≤ c.toNat ∧ c.toNat ≤ 57
  | n => by
    rw [natToStr]
    by_cases h : n < 10
    · rw [if_pos h]
      intro c hc
      rw [List.mem_singleton] at hc
      subst hc
      exact digitChar_is_digit n h
    · rw [if_neg h]
      intro c hc
      rcases List.mem_append.mp hc with h1 | h2
      · exact natToStr_digits (n / 10) c h1
      · rw [List.mem_singleton] at h2
        subst h2
        exact digitChar_is_digit _ (by omega)
  termination_by n => n
  decreasing_by exact Nat.div_lt_self (by omega) (by omega)

theorem digitsValAux_append :
    ∀ (s t : GoStr) (acc m : Nat),
      digitsValAux s acc = some m → digitsValAux (s ++ t) acc = digitsValAux t m
  | [], t, acc, m, h => by
    have hacc : acc = m := Option.some.inj h
    rw [List.nil_append, hacc]
  | c :: rest, t, acc, m, h => by
    rw [digitsValAux] at h
    rw [List.cons_append, digitsValAux]
    by_cases hc : 48 ≤ c.toNat ∧ c.toNat ≤ 57
    · rw [if_pos hc] at h ⊢
      exact digitsValAux_append rest t _ m h
    · rw [if_neg hc] at h
      cases h

theorem digitsValAux_natToStr :
    ∀ (n acc : Nat), digitsValAux (natToStr n) acc = some (acc * 10 ^ (natToStr n).length + n)
  | n, acc => by
    rw [natToStr]
    by_cases h : n < 10
    · rw [if_pos h, digitsValAux, if_pos (digitChar_is_digit n h), digitsValAux,
        toNat_digitChar n h]
      rw [List.length_singleton, pow_one]
      have he : 48 + n - 48 = n := by omega
      rw [he]
    · rw [if_neg h]
      have ih := digitsValAux_natToStr (n / 10) acc
      rw [digitsValAux_append _ _ _ _ ih, digitsValAux,
        if_pos (digitChar_is_digit _ (by omega)), digitsValAux, toNat_digitChar _ (by omega)]
      rw [List.length_append, List.length_singleton, pow_succ]
      have he : 48 + n % 10 - 48 = n % 10 := by omega
      rw [he]
      have key : ∀ A : Nat, (A + n / 10) * 10 + n % 10 = A * 10 + n := fun A => by omega
      rw [key (acc * 10 ^ (natToStr (n / 10)).length), Nat.mul_assoc]
  termination_by n _ => n
  decreasing_by exact Nat.div_lt_self (by omega) (by omega)

theorem digitsVal_eq_aux (s : GoStr) (h : s ≠ []) : digitsVal s = digitsValAux s 0 := by
  cases s with
  | nil => exact absurd rfl h
  | cons c rest => rfl

theorem digitsVal_natToStr (n : Nat) : digitsVal (natToStr n) = some n := by
  rw [digitsVal_eq_aux _ (natToStr_ne_nil n), digitsValAux_natToStr n 0]
  rw [Nat.zero_mul, Nat.zero_add]

theorem natToStr_head_not_sign (n : Nat) :
    ∃ c cs, natToStr n = c :: cs ∧ c ≠ '+' ∧ c ≠ '-' := by
  cases hs : natToStr n with
  | nil => exact absurd hs (natToStr_ne_nil n)
  | cons c cs =>
    refine ⟨c, cs, rfl, ?_, ?_⟩
    · intro he
      have hd := natToStr_digits n c (by rw [hs]; exact List.mem_cons_self c cs)
      rw [he] at hd
      revert hd
      decide
    · intro he
      have hd := natToStr_digits n c (by rw [hs]; exact List.mem_cons_self c cs)
      rw [he] at hd
      revert hd
      decide

theorem atoi_natToStr (n : Nat) : atoi (natToStr n) = some (Int.ofNat n) := by
  obtain ⟨c, cs, hs, hp, hm⟩ := natToStr_head_not_sign n
  rw [hs, atoi, if_neg hp, if_neg hm, ← hs, digitsVal_natToStr n]
  rfl

theorem atoi_neg_natToStr (n : Nat) : atoi ('-' :: natToStr n) = some (-Int.ofNat n) := by
  rw [atoi, if_neg (by decide), if_pos rfl, digitsVal_natToStr n]
  rfl

theorem digitsVal_append_nondigit (n : Nat) (c : Char)
    (hc : ¬(48 ≤ c.toNat ∧ c.toNat ≤ 57)) : digitsVal (natToStr n ++ [c]) = none := by
  have hne : natToStr n ++ [c] ≠ [] := by simp
  rw [digitsVal_eq_aux _ hne, digitsValAux_append _ _ _ _ (digitsValAux_natToStr n 0),
    digitsValAux, if_neg hc]

theorem atoi_natToStr_append_nondigit (n : Nat) (c : Char)
    (hc : ¬(48 ≤ c.toNat ∧ c.toNat ≤ 57)) : atoi (natToStr n ++ [c]) = none := by
  obtain ⟨c0, cs0, hs, hp, hm⟩ := natToStr_head_not_sign n
  rw [hs, List.cons_append, atoi, if_neg hp, if_neg hm, ← List.cons_append, ← hs,
    digitsVal_append_nondigit n c hc]
  rfl

theorem endsWith_single_append (d c : Char) (xs : GoStr) :
    endsWith [d] (xs ++ [c]) = (d == c) := by
  unfold endsWith
  rw [List.reverse_append]
  show ((d == c) && strStarts [] xs.reverse) = (d == c)
  rw [show strStarts [] xs.reverse = true from rfl, Bool.and_true]

theorem trimSuf_single_append (c : Char) (xs : GoStr) :
    trimSuf [c] (xs ++ [c]) = xs := by
  unfold trimSuf
  rw [if_pos (by rw [endsWith_single_append]; simp)]
  rw [List.length_append, List.length_singleton]
  have harith : xs.length + 1 - 1 = xs.length := by omega
  rw [harith]
  exact List.take_left xs [c]

/-- C3: the claim fails on the code.  The w and m suffixes are not translated
to time windows: with an empty cursor the limits 1w and 1m fall through to
the numeric parser and are rejected as invalid numeric limits (only the d
suffix reaches limitByDays). -/
theorem conversationsLimit_w_m_rejected :
    parseConvLimit tenv0 (str "1w") [] =
      Except.error (str "invalid numeric limit: " ++ goQuote (str "1w"))
    ∧ parseConvLimit tenv0 (str "1m") [] =
      Except.error (str "invalid numeric limit: " ++ goQuote (str "1m")) :=
  ⟨rfl, rfl⟩

/-- C3 amended: for a positive integer N, only the suffix d is translated:
limit Nd yields per-page limit 100, oldest = local midnight of (today minus
N-1 days) and latest = now (as second.000000 stamps), for any cursor; the
suffixes w and m are rejected as invalid numeric limits when the cursor is
empty; 0d and negative -Nd are rejected as invalid duration limits. -/
theorem conversationsLimit_d_only (tenv : TimeEnv) (N : Nat) (cursor : GoStr) (hN : 0 < N) :
    parseConvLimit tenv (natToStr N ++ str "d") cursor =
      Except.ok (100, intToStr (tenv.midnightShift (1 - (N : Int))) ++ str ".000000",
        intToStr tenv.nowUnix ++ str ".000000")
    ∧ parseConvLimit tenv (natToStr N ++ str "w") [] =
      Except.error (str "invalid numeric limit: " ++ goQuote (natToStr N ++ str "w"))
    ∧ parseConvLimit tenv (natToStr N ++ str "m") [] =
      Except.error (str "invalid numeric limit: " ++ goQuote (natToStr N ++ str "m"))
    ∧ parseConvLimit tenv (str "0d") cursor = Except.error (durErrMsg (str "0d"))
    ∧ parseConvLimit tenv ('-' :: (natToStr N ++ str "d")) cursor =
      Except.error (durErrMsg ('-' :: (natToStr N ++ str "d"))) := by
  have hdstr : str "d" = ['d'] := rfl
  have hwstr : str "w" = ['w'] := rfl
  have hmstr : str "m" = ['m'] := rfl
  have hassoc : '-' :: (natToStr N ++ ['d']) = ('-' :: natToStr N) ++ ['d'] := rfl
  refine ⟨?_, ?_, ?_, ?_, ?_⟩
  · rw [parseConvLimit, hdstr,
      if_pos (by rw [endsWith_single_append]; rfl)]
    unfold limitByDays
    simp only [hdstr, trimSuf_single_append, atoi_natToStr]
    have hcond : ¬(Int.ofNat N ≤ 0) := by
      have h0 : (0 : Int) < Int.ofNat N := Int.ofNat_lt.mpr hN
      exact h0.not_le
    rw [if_neg hcond]
    rfl
  · rw [parseConvLimit, hdstr, hwstr,
      if_neg (by rw [endsWith_single_append]; simp)]
    rw [if_pos rfl]
    unfold limitByNumeric
    simp only [hwstr, atoi_natToStr_append_nondigit N 'w' (by decide)]
  · rw [parseConvLimit, hdstr, hmstr,
      if_neg (by rw [endsWith_single_append]; simp)]
    rw [if_pos rfl]
    unfold limitByNumeric
    simp only [hmstr, atoi_natToStr_append_nondigit N 'm' (by decide)]
  · rw [parseConvLimit, if_pos (by rfl)]
    rfl
  · rw [parseConvLimit, hdstr,
      if_pos (by rw [hassoc, endsWith_single_append]; rfl)]
    unfold limitByDays
    simp only [hdstr, hassoc, trimSuf_single_append, atoi_neg_natToStr]
    have hcond : -Int.ofNat N ≤ 0 := by
      have h0 : (0 : Int) ≤ Int.ofNat N := Int.ofNat_le.mpr (Nat.zero_le N)
      omega
    rw [if_pos hcond]

/-- C3 witness: the amended claim evaluated at N = 2 with an empty cursor in
the concrete time environment. -/
theorem conversationsLimit_d_only_witness :
    0 < 2 ∧
    (parseConvLimit tenv0 (natToStr 2 ++ str "d") [] =
      Except.ok (100, intToStr (tenv0.midnightShift (1 - (2 : Int))) ++ str ".000000",
        intToStr tenv0.nowUnix ++ str ".000000")
    ∧ parseConvLimit tenv0 (natToStr 2 ++ str "w") [] =
      Except.error (str "invalid numeric limit: " ++ goQuote (natToStr 2 ++ str "w"))
    ∧ parseConvLimit tenv0 (natToStr 2 ++ str "m") [] =
      Except.error (str "invalid numeric limit: " ++ goQuote (natToStr 2 ++ str "m"))
    ∧ parseConvLimit tenv0 (str "0d") [] = Except.error (durErrMsg (str "0d"))
    ∧ parseConvLimit tenv0 ('-' :: (natToStr 2 ++ str "d")) [] =
      Except.error (durErrMsg ('-' :: (natToStr 2 ++ str "d")))) :=
  ⟨by decide, conversationsLimit_d_only tenv0 2 [] (by decide)⟩

/-- C4: the claim fails on the code.  A non-empty thread_ts without a dot is
not refused: with channel C123 and thread_ts "123" the replies handler's
validation succeeds and the Slack request is built with Timestamp "123"; the
only thread_ts check before the Slack call is non-emptiness (the 123.456
format check exists only in the add-message parser). -/
theorem conversationsReplies_accepts_dotless :
    conversationsRepliesPrepare tenv0 NewApiProvider (str "C123") (str "1") [] (str "123") false
      = Except.ok ⟨str "C123", str "123", 1, [], [], [], false⟩
    ∧ containsChar '.' (str "123") = false :=
  ⟨rfl, rfl⟩

/-- C4 amended: given that the conversation parameters parse, the replies
handler rejects the request exactly when thread_ts is empty; any non-empty
thread_ts — in the 123.456 form or not — is passed unchanged as the Timestamp
of the Slack replies call. -/
theorem conversationsReplies_threadTs_gate (tenv : TimeEnv) (ap : ApiProvider)
    (channel_id limit cursor thread_ts : GoStr) (activity : Bool) (q : ConversationParams)
    (hq : parseParamsToolConversations tenv ap channel_id limit cursor activity = Except.ok q) :
    (thread_ts = [] →
      conversationsRepliesPrepare tenv ap channel_id limit cursor thread_ts activity =
        Except.error (str "thread_ts must be a string"))
    ∧ (thread_ts ≠ [] →
      conversationsRepliesPrepare tenv ap channel_id limit cursor thread_ts activity =
        Except.ok ⟨q.channel, thread_ts, q.limit, q.oldest, q.latest, q.cursor, false⟩) := by
  constructor
  · intro h
    unfold conversationsRepliesPrepare
    rw [hq]
    show (if thread_ts = [] then Except.error (str "thread_ts must be a string")
      else Except.ok (⟨q.channel, thread_ts, q.limit, q.oldest, q.latest, q.cursor, false⟩ :
        GetConversationRepliesParameters)) = _
    rw [if_pos h]
  · intro h
    unfold conversationsRepliesPrepare
    rw [hq]
    show (if thread_ts = [] then Except.error (str "thread_ts must be a string")
      else Except.ok (⟨q.channel, thread_ts, q.limit, q.oldest, q.latest, q.cursor, false⟩ :
        GetConversationRepliesParameters)) = _
    rw [if_neg h]

/-- C4 witness: the amended claim at channel C123, limit 1, thread_ts "9". -/
theorem conversationsReplies_threadTs_gate_witness :
    parseParamsToolConversations tenv0 NewApiProvider (str "C123") (str "1") [] false =
      Except.ok ⟨str "C123", 1, [], [], [], false⟩
    ∧ ((str "9" = ([] : GoStr) →
      conversationsRepliesPrepare tenv0 NewApiProvider (str "C123") (str "1") [] (str "9") false =
        Except.error (str "thread_ts must be a string"))
    ∧ (str "9" ≠ ([] : GoStr) →
      conversationsRepliesPrepare tenv0 NewApiProvider (str "C123") (str "1") [] (str "9") false =
        Except.ok ⟨str "C123", str "9", 1, [], [], [], false⟩)) :=
  ⟨rfl, conversationsReplies_threadTs_gate tenv0 NewApiProvider (str "C123") (str "1") []
    (str "9") false ⟨str "C123", 1, [], [], [], false⟩ rfl⟩

theorem fieldsAux_nospace :
    ∀ (t rest acc : GoStr), (∀ c ∈ t, isSpaceGo c = false) →
      fieldsAux (t ++ rest) acc = fieldsAux rest (t.reverse ++ acc)
  | [], rest, acc, _ => by simp
  | c :: t', rest, acc, h => by
    rw [List.cons_append, fieldsAux, if_neg (by rw [h c (by simp)]; exact Bool.false_ne_true),
      fieldsAux_nospace t' rest (c :: acc) (fun d hd => h d (by simp [hd]))]
    simp

theorem fields_join :
    ∀ toks : List GoStr, (∀ t ∈ toks, t ≠ [] ∧ ∀ c ∈ t, isSpaceGo c = false) →
      fields (joinWith [' '] toks) = toks
  | [], _ => rfl
  | [t], h => by
    obtain ⟨hne, hns⟩ := h t (by simp)
    show fieldsAux t [] = [t]
    have h2 : fieldsAux (t ++ []) [] = fieldsAux [] (t.reverse ++ []) :=
      fieldsAux_nospace t [] [] hns
    rw [List.append_nil] at h2
    rw [h2, fieldsAux, if_neg (by simp [hne])]
    simp
  | t :: t2 :: rest, h => by
    obtain ⟨hne, hns⟩ := h t (by simp)
    have ih := fields_join (t2 :: rest) (fun x hx => h x (by simp [List.mem_cons] at hx ⊢; tauto))
    show fieldsAux (t ++ [' '] ++ joinWith [' '] (t2 :: rest)) [] = t :: t2 :: rest
    rw [List.append_assoc,
      show [' '] ++ joinWith [' '] (t2 :: rest) = ' ' :: joinWith [' '] (t2 :: rest) from rfl]
    rw [fieldsAux_nospace t (' ' :: joinWith [' '] (t2 :: rest)) [] hns]
    rw [fieldsAux, if_pos (by rfl), if_neg (by simp [hne])]
    rw [show fieldsAux (joinWith [' '] (t2 :: rest)) [] = fields (joinWith [' '] (t2 :: rest))
      from rfl, ih]
    simp

theorem splitQueryAux_append :
    ∀ (xs ys : List GoStr) (acc : List GoStr × Filters),
      splitQueryAux (xs ++ ys) acc = splitQueryAux ys (splitQueryAux xs acc)
  | [], ys, acc => rfl
  | tok :: xs', ys, (free, fl) => by
    rw [List.cons_append]
    cases h : splitN2 tok with
    | none =>
      rw [show splitQueryAux (tok :: (xs' ++ ys)) (free, fl)
          = splitQueryAux (xs' ++ ys) (free ++ [tok], fl) from by
            simp only [splitQueryAux, h]]
      rw [show splitQueryAux (tok :: xs') (free, fl)
          = splitQueryAux xs' (free ++ [tok], fl) from by
            simp only [splitQueryAux, h]]
      exact splitQueryAux_append xs' ys _
    | some kv =>
      obtain ⟨k, v⟩ := kv
      by_cases hf : isFilterKey k = true
      · rw [show splitQueryAux (tok :: (xs' ++ ys)) (free, fl)
            = splitQueryAux (xs' ++ ys) (free, appendFilter fl (toLowerStr k) v) from by
              simp only [splitQueryAux, h, hf, if_true]]
        rw [show splitQueryAux (tok :: xs') (free, fl)
            = splitQueryAux xs' (free, appendFilter fl (toLowerStr k) v) from by
              simp only [splitQueryAux, h, hf, if_true]]
        exact splitQueryAux_append xs' ys _
      · have hf2 : isFilterKey k = false := by
          cases hcase : isFilterKey k
          · rfl
          · exact absurd hcase hf
        rw [show splitQueryAux (tok :: (xs' ++ ys)) (free, fl)
            = splitQueryAux (xs' ++ ys) (free ++ [tok], fl) from by
              simp only [splitQueryAux, h, hf2]
              rfl]
        rw [show splitQueryAux (tok :: xs') (free, fl)
            = splitQueryAux xs' (free ++ [tok], fl) from by
              simp only [splitQueryAux, h, hf2]
              rfl]
        exact splitQueryAux_append xs' ys _

theorem splitQueryAux_free :
    ∀ (toks free : List GoStr) (fl : Filters),
      (∀ tok ∈ toks, ∀ k v, splitN2 tok = some (k, v) → isFilterKey k = false) →
      splitQueryAux toks (free, fl) = (free ++ toks, fl)
  | [], free, fl, _ => by simp [splitQueryAux]
  | tok :: rest, free, fl, h => by
    have hrest : ∀ t ∈ rest, ∀ k v, splitN2 t = some (k, v) → isFilterKey k = false :=
      fun t ht => h t (by simp [ht])
    cases hs : splitN2 tok with
    | none =>
      rw [show splitQueryAux (tok :: rest) (free, fl)
          = splitQueryAux rest (free ++ [tok], fl) from by simp only [splitQueryAux, hs]]
      rw [splitQueryAux_free rest (free ++ [tok]) fl hrest]
      simp
    | some kv =>
      obtain ⟨k, v⟩ := kv
      have hf : isFilterKey k = false := h tok (by simp) k v hs
      rw [show splitQueryAux (tok :: rest) (free, fl)
          = splitQueryAux rest (free ++ [tok], fl) from by
            simp only [splitQueryAux, hs, hf]
            rfl]
      rw [splitQueryAux_free rest (free ++ [tok]) fl hrest]
      simp

theorem validKey_facts :
    ∀ k ∈ validFilterKeys,
      k ≠ [] ∧ isFilterKey k = true ∧ toLowerStr k = k ∧
        ∀ c ∈ k, c ≠ ':' ∧ isSpaceGo c = false := by
  decide

theorem setFilter_getFilter_self (f : Filters) (k : GoStr) (hk : k ∈ validFilterKeys) :
    setFilter f k (getFilter f k) = f := by
  rcases (by simp [validFilterKeys] at hk; exact hk :
    k = str "is" ∨ k = str "in" ∨ k = str "from" ∨ k = str "with" ∨ k = str "before" ∨
      k = str "after" ∨ k = str "on" ∨ k = str "during") with
    rfl | rfl | rfl | rfl | rfl | rfl | rfl | rfl <;> rfl

theorem getFilter_setFilter_self (f : Filters) (k : GoStr) (vs : List GoStr)
    (hk : k ∈ validFilterKeys) : getFilter (setFilter f k vs) k = vs := by
  rcases (by simp [validFilterKeys] at hk; exact hk :
    k = str "is" ∨ k = str "in" ∨ k = str "from" ∨ k = str "with" ∨ k = str "before" ∨
      k = str "after" ∨ k = str "on" ∨ k = str "during") with
    rfl | rfl | rfl | rfl | rfl | rfl | rfl | rfl <;> rfl

theorem setFilter_setFilter_self (f : Filters) (k : GoStr) (vs ws : List GoStr)
    (hk : k ∈ validFilterKeys) : setFilter (setFilter f k vs) k ws = setFilter f k ws := by
  rcases (by simp [validFilterKeys] at hk; exact hk :
    k = str "is" ∨ k = str "in" ∨ k = str "from" ∨ k = str "with" ∨ k = str "before" ∨
      k = str "after" ∨ k = str "on" ∨ k = str "during") with
    rfl | rfl | rfl | rfl | rfl | rfl | rfl | rfl <;> rfl

theorem foldl_appendFilter (k : GoStr) (hk : k ∈ validFilterKeys) :
    ∀ (vs : List GoStr) (g : Filters),
      List.foldl (fun g v => appendFilter g k v) g vs = setFilter g k (getFilter g k ++ vs)
  | [], g => by
    rw [List.foldl_nil, List.append_nil, setFilter_getFilter_self g k hk]
  | v :: vs, g => by
    rw [List.foldl_cons, foldl_appendFilter k hk vs (appendFilter g k v)]
    unfold appendFilter
    rw [getFilter_setFilter_self _ _ _ hk, setFilter_setFilter_self _ _ _ _ hk]
    rw [List.append_assoc]
    rfl

theorem splitN2_key :
    ∀ (k v : GoStr), (∀ c ∈ k, c ≠ ':') → splitN2 (k ++ ':' :: v) = some (k, v)
  | [], v, _ => by
    rw [List.nil_append, splitN2, if_pos rfl]
  | c :: k', v, h => by
    rw [List.cons_append, splitN2, if_neg (h c (by simp)),
      splitN2_key k' v (fun d hd => h d (by simp [hd]))]

theorem process_key_group (fl : Filters) (k : GoStr) (hk : k ∈ validFilterKeys) :
    ∀ (vs free : List GoStr) (g : Filters),
      splitQueryAux (vs.map (fun v => k ++ ':' :: v)) (free, g)
        = (free, List.foldl (fun g v => appendFilter g k v) g vs)
  | [], free, g => rfl
  | v :: vs, free, g => by
    obtain ⟨-, hkey, hlow, hchars⟩ := validKey_facts k hk
    rw [List.map_cons]
    rw [show splitQueryAux ((k ++ ':' :: v) :: vs.map (fun v => k ++ ':' :: v)) (free, g)
        = splitQueryAux (vs.map (fun v => k ++ ':' :: v)) (free, appendFilter g (toLowerStr k) v)
        from by
          simp only [splitQueryAux, splitN2_key k v (fun c hc => (hchars c hc).1), hkey, if_true]]
    rw [hlow, process_key_group fl k hk vs free (appendFilter g k v)]
    rw [List.foldl_cons]

theorem process_groups (fl : Filters) :
    ∀ (ks : List GoStr), (∀ k ∈ ks, k ∈ validFilterKeys) →
      ∀ (free : List GoStr) (g : Filters),
        splitQueryAux (ks.flatMap (fun k => (getFilter fl k).map (fun v => k ++ ':' :: v)))
            (free, g)
          = (free, ks.foldl (fun g k => setFilter g k (getFilter g k ++ getFilter fl k)) g)
  | [], _, free, g => rfl
  | k :: ks, h, free, g => by
    have hk : k ∈ validFilterKeys := h k (by simp)
    rw [List.flatMap_cons, splitQueryAux_append,
      process_key_group fl k hk (getFilter fl k) free g,
      foldl_appendFilter k hk (getFilter fl k) g,
      process_groups fl ks (fun x hx => h x (by simp [hx])) free _,
      List.foldl_cons]

/-- C6: the round-trip claim fails on the code as universally stated: a
filter value containing a space is re-tokenized on parse.  With no free text
and the single filter is:(a b), the emitted query is the string is:a b,
which splitQuery reads back as free text [b] with filter is:[a]. -/
theorem buildQuery_splitQuery_not_roundtrip :
    splitQuery (buildQuery [] { is_ := [str "a b"] }) ≠
      (([] : List GoStr), ({ is_ := [str "a b"] } : Filters)) := by
  decide

set_option maxHeartbeats 1000000 in
/-- C6 amended: the round trip holds for whitespace-free tokens: when every
free-text token is nonempty, contains no white space and is not classified as
a filter token (key matched case-insensitively), and every filter value
contains no white space, parsing the emitted query returns exactly the same
free text and per-key filter lists (buildQuery emits filter tokens in the
fixed key order is, in, from, with, before, after, on, during); and adding an
already-present (key, value) pair via addFilter leaves the map unchanged. -/
theorem buildQuery_splitQuery_roundtrip (freeText : List GoStr) (fl : Filters)
    (hfree : ∀ tok ∈ freeText,
      tok ≠ [] ∧ (∀ c ∈ tok, isSpaceGo c = false) ∧ classifiesFree tok = true)
    (hvals : ∀ k ∈ validFilterKeys, ∀ v ∈ getFilter fl k, ∀ c ∈ v, isSpaceGo c = false) :
    splitQuery (buildQuery freeText fl) = (freeText, fl)
    ∧ ∀ k v, k ∈ validFilterKeys → v ∈ getFilter fl k → addFilter fl k v = fl := by
  have hbk : ∀ k ∈ buildKeyOrder, k ∈ validFilterKeys := by decide
  constructor
  · unfold splitQuery buildQuery
    have htoks : ∀ t ∈ freeText ++
        buildKeyOrder.flatMap (fun k => (getFilter fl k).map (fun v => k ++ ':' :: v)),
        t ≠ [] ∧ ∀ c ∈ t, isSpaceGo c = false := by
      intro t ht
      rcases List.mem_append.mp ht with hfr | hem
      · exact ⟨(hfree t hfr).1, (hfree t hfr).2.1⟩
      · obtain ⟨k, hk, hmem⟩ := List.mem_flatMap.mp hem
        obtain ⟨v, hv, rfl⟩ := List.mem_map.mp hmem
        constructor
        · simp
        · intro c hc
          rcases List.mem_append.mp hc with hck | hcv
          · exact ((validKey_facts k (hbk k hk)).2.2.2 c hck).2
          · rcases List.mem_cons.mp hcv with rfl | hcv2
            · rfl
            · exact hvals k (hbk k hk) v hv c hcv2
    rw [fields_join _ htoks, splitQueryAux_append,
      splitQueryAux_free freeText [] ({} : Filters) (fun tok ht k v hs => by
        have hcl : classifiesFree tok = true := (hfree tok ht).2.2
        unfold classifiesFree at hcl
        rw [hs] at hcl
        have hcl2 : (!isFilterKey k) = true := hcl
        cases hcase : isFilterKey k
        · rfl
        · rw [hcase] at hcl2
          exact absurd hcl2 (by decide)),
      List.nil_append,
      process_groups fl buildKeyOrder hbk freeText ({} : Filters)]
    rfl
  · intro k v hk hv
    unfold addFilter
    rw [if_pos hv]

/-- C6 witness: the amended claim at free text [hello] and filters
is:[thread], in:[#general]. -/
theorem buildQuery_splitQuery_roundtrip_witness :
    (∀ tok ∈ [str "hello"],
      tok ≠ [] ∧ (∀ c ∈ tok, isSpaceGo c = false) ∧ classifiesFree tok = true)
    ∧ (splitQuery (buildQuery [str "hello"]
          { is_ := [str "thread"], in_ := [str "#general"] })
        = ([str "hello"], { is_ := [str "thread"], in_ := [str "#general"] })
      ∧ ∀ k v, k ∈ validFilterKeys →
        v ∈ getFilter { is_ := [str "thread"], in_ := [str "#general"] } k →
        addFilter { is_ := [str "thread"], in_ := [str "#general"] } k v
          = { is_ := [str "thread"], in_ := [str "#general"] }) :=
  ⟨by decide,
    buildQuery_splitQuery_roundtrip [str "hello"]
      { is_ := [str "thread"], in_ := [str "#general"] } (by decide) (by decide)⟩

/-- C7: in domain-list mode (the configuration is none of the seven
sentinels), unfurling is enabled for a message exactly when every http(s) URL
in the text whose host parses has its normalized host (lowercased, port cut,
leading www. stripped) in the list, and every bare-domain token whose public
suffix is ICANN-listed is (lowercased) in the list; and on the claim's
example, the list example.com,foo.io disables unfurling for the text
containing bare bad.com while the sentinel yes enables it. -/
theorem isUnfurlingEnabled_whitelist :
    (∀ (env : NetEnv) (text opt : GoStr),
      opt ≠ [] → opt ≠ str "no" → opt ≠ str "false" → opt ≠ str "0" →
      opt ≠ str "yes" → opt ≠ str "true" → opt ≠ str "1" →
      (IsUnfurlingEnabled env text opt = true ↔
        (∀ u ∈ findUrlsWs text, ∀ h, env.urlParseHost u = some h →
          (allowedDomains opt).contains (normHost h) = true)
        ∧ (∀ d ∈ findDoms (replaceUrlsWs text.length text),
            env.pubSuffixIcann (toLowerStr d) = true →
            (allowedDomains opt).contains (toLowerStr d) = true)))
    ∧ IsUnfurlingEnabled sampleNetEnv (str "Visit https://example.com and bad.com")
        (str "example.com,foo.io") = false
    ∧ IsUnfurlingEnabled sampleNetEnv (str "Visit https://example.com and bad.com")
        (str "yes") = true := by
  refine ⟨?_, by decide, by decide⟩
  intro env text opt h1 h2 h3 h4 h5 h6 h7
  unfold IsUnfurlingEnabled
  rw [if_neg (by
    intro hc
    rcases hc with hc | hc | hc | hc
    · exact h1 hc
    · exact h2 hc
    · exact h3 hc
    · exact h4 hc)]
  rw [if_neg (by
    intro hc
    rcases hc with hc | hc | hc
    · exact h5 hc
    · exact h6 hc
    · exact h7 hc)]
  by_cases hurl : (findUrlsWs text).all (fun u =>
      match env.urlParseHost u with
      | none => true
      | some h => (allowedDomains opt).contains (normHost h)) = true
  · rw [if_pos hurl]
    constructor
    · intro hall
      constructor
      · intro u hu h hh
        have hx := List.all_eq_true.mp hurl u hu
        rw [hh] at hx
        exact hx
      · intro d hd hic
        have hx := List.all_eq_true.mp hall d hd
        simp only [hic, if_true] at hx
        exact hx
    · rintro ⟨-, hd⟩
      apply List.all_eq_true.mpr
      intro d hdm
      show (if env.pubSuffixIcann (toLowerStr d) = true then
        (allowedDomains opt).contains (toLowerStr d) else true) = true
      by_cases hic : env.pubSuffixIcann (toLowerStr d) = true
      · rw [if_pos hic]
        exact hd d hdm hic
      · rw [if_neg hic]
  · rw [if_neg hurl]
    constructor
    · intro hfalse
      cases hfalse
    · rintro ⟨hu, -⟩
      exfalso
      apply hurl
      apply List.all_eq_true.mpr
      intro u hum
      show (match env.urlParseHost u with
        | none => true
        | some h => (allowedDomains opt).contains (normHost h)) = true
      cases hh : env.urlParseHost u with
      | none => rfl
      | some h => exact hu u hum h hh

/-- C7 witness: the general part of the claim applied to the sample library
instance, the claim's text and the domain list example.com,foo.io. -/
theorem isUnfurlingEnabled_whitelist_witness :
    (str "example.com,foo.io" ≠ ([] : GoStr)) ∧
    (IsUnfurlingEnabled sampleNetEnv (str "Visit https://example.com and bad.com")
        (str "example.com,foo.io") = true ↔
      (∀ u ∈ findUrlsWs (str "Visit https://example.com and bad.com"), ∀ h,
        sampleNetEnv.urlParseHost u = some h →
        (allowedDomains (str "example.com,foo.io")).contains (normHost h) = true)
      ∧ (∀ d ∈ findDoms (replaceUrlsWs (str "Visit https://example.com and bad.com").length
            (str "Visit https://example.com and bad.com")),
          sampleNetEnv.pubSuffixIcann (toLowerStr d) = true →
          (allowedDomains (str "example.com,foo.io")).contains (toLowerStr d) = true)) :=
  ⟨by decide,
    isUnfurlingEnabled_whitelist.1 sampleNetEnv
      (str "Visit https://example.com and bad.com") (str "example.com,foo.io")
      (by decide) (by decide) (by decide) (by decide) (by decide) (by decide) (by decide)⟩

/-- C8: inbound sanitization rewrites the Slack-style link, appends the comma
because the link is not the last content, preserves the URL, and collapses
the whitespace: the claim's example evaluates exactly as stated. -/
theorem processText_slack_link_example :
    ProcessText (str "aaabbcc <https://google.com|This is a link> aabbcc") =
      str "aaabbcc https://google.com - This is a link, aabbcc" := by
  decide

end SlackMCP
